import Mathlib

/-!
# nPDF viewer: page iterator and document find state machine

A shallow embedding of `src/Viewer.cpp` / `src/Viewer.hpp`.

Modelling conventions

* `int` values are `Int`, `unsigned int` values are `Nat`.  Two places can
  leave the 32-bit range: `pageNo ± 1` in `Document.next` / `Document.prev`,
  reduced modulo `2 ^ 32` there, and the `int` sum `nPages + current + dir`
  of `PageIterator.next`, which exceeds `2 ^ 31 - 1` on documents of `2 ^ 30`
  pages or more and then wraps around in two's complement (`wrapInt32`), as
  the compiled code does.
* `%` on `int` is C++ truncated remainder, `Int.tmod`.  A remainder by
  zero is a fault, `Fault.divByZero`.
* `fz_rect` coordinates are exact rationals (finite, non-NaN floats).
* The page engine (MuPDF) is a parameter, `Engine`.
* The array `Document::matches` is the field `matches_`; a
  `const fz_rect*` into it is the index it points
  at (`some i` for `&matches[i]`, `none` for `nullptr`).
* `while` loops take a fuel argument; running out of fuel is
  `Fault.outOfFuel`, and the theorems give the fuel that suffices.
* `loadLog` and `searchLog` are ghost fields recording the calls made
  to `fz_load_page` and `fz_search_page_number`.
* `float` values of the viewer (scale, zoom factor, page bounds) are exact
  rationals; `static_cast<int>` and the implicit conversion of a `float`
  to `int` truncate toward zero, `floatToInt`.
* A call through a null `doc` is `Fault.nullPointer`; reading a cell of
  `matches` that was never written is `Fault.unreadable`.
* The pixmap is the ghost field `inverted`, the rectangles inverted on it
  since it was rendered; message boxes are the ghost field `msgs`.
-/

namespace NPDF

/-- Rectangle of the page engine, `fz_rect`. -/
structure fz_rect where
  x0 : ℚ
  y0 : ℚ
  x1 : ℚ
  y1 : ℚ
deriving DecidableEq

/-- Capacity of `Document::matches`, `#define MATCH_LIMIT 512`. -/
def MATCH_LIMIT : Nat := 512

/-- The `enum Direction` of `Viewer.hpp`. -/
inductive Direction where
  | FORWARD
  | BACKWARD
deriving DecidableEq

/-- Integer value of a direction: `FORWARD = 1`, `BACKWARD = -1`. -/
def Direction.toInt : Direction → Int
  | Direction.FORWARD => 1
  | Direction.BACKWARD => -1

/-- Ways a run of the embedded code can fail to produce a value. -/
inductive Fault where
  | divByZero
  | outOfFuel
  | nullPointer
  | unreadable
deriving DecidableEq

/-- The `struct PageIterator` of `Viewer.hpp`. -/
structure PageIterator where
  start : Int
  nPages : Int
  dir : Direction
  current : Int
deriving DecidableEq

/-- Constructor `PageIterator::PageIterator(start, nPages, dir)`. -/
def PageIterator.new (start nPages : Int) (dir : Direction) : PageIterator :=
  { start := start, nPages := nPages, dir := dir, current := start }

/-- Value held by a 32-bit `int` when the exact result of an addition is `x`:
two's complement wrap-around into `[-2^31, 2^31)`. -/
def wrapInt32 (x : Int) : Int := (x + 2147483648) % 4294967296 - 2147483648

/-- Method `PageIterator::next`: the returned value and the iterator after the call.
The sum `nPages + current + dir` is evaluated left to right in `int`. -/
def PageIterator.next (it : PageIterator) : Except Fault (Int × PageIterator) :=
  if it.nPages = 0 then Except.error Fault.divByZero
  else
    let newCurrent :=
      Int.tmod (wrapInt32 (wrapInt32 (it.nPages + it.current) + it.dir.toInt)) it.nPages
    if newCurrent ≠ it.start then
      Except.ok (newCurrent, { it with current := newCurrent })
    else
      Except.ok (-1, it)

/-- Call number `k + 1` of `next()` on the iterator `it`: the value it returns and the
iterator after it. -/
def PageIterator.nthNext (it : PageIterator) : Nat → Except Fault (Int × PageIterator)
  | 0 => it.next
  | k + 1 =>
    match it.next with
    | Except.error e => Except.error e
    | Except.ok (_, it1) => it1.nthNext k

/-- The page engine behind a `fz_document`: page count, page bounds and
all occurrences of a needle on a page, in the order the engine reports them. -/
structure Engine where
  fz_count_pages : Int
  fz_bound_page : Nat → fz_rect
  hits : Int → Option String → List fz_rect

/-- Engine call `fz_search_page_number(ctx, doc, page, needle, hit_bbox, hit_max)`:
the rectangles written to `hit_bbox`; their number is the returned count. -/
def fz_search_page_number (eng : Engine) (page : Int) (needle : Option String)
    (hit_max : Nat) : List fz_rect :=
  (eng.hits page needle).take hit_max

/-- Comparator handed to `std::sort` in `gotoNextPageWithOccurrence`. -/
def matchLess (a b : fz_rect) : Prop :=
  a.y0 < b.y0 ∨ (a.y0 = b.y0 ∧ a.x0 < b.x0)

instance matchLess.decidable : DecidableRel matchLess := fun a b => by
  unfold matchLess; infer_instance

/-- Order `std::sort` establishes for `matchLess`: `a` may stand before `b`. -/
def matchLe (a b : fz_rect) : Prop := ¬ matchLess b a

instance matchLe.decidable : DecidableRel matchLe := fun a b => by
  unfold matchLe; infer_instance

/-- Reading order as the specification words it: the top edge `y0` does not decrease,
and on equal `y0` the left edge `x0` does not decrease. -/
def readingOrder (a b : fz_rect) : Prop :=
  a.y0 ≤ b.y0 ∧ (a.y0 = b.y0 → a.x0 ≤ b.x0)

/-- Call `std::sort(matches, matches + n, matchLess)` on the array `matches`. -/
def stdSort (ms : List fz_rect) (n : Nat) : List fz_rect :=
  List.insertionSort matchLe (ms.take n) ++ ms.drop n

/-- The page and find state of `class Document`. -/
structure Document where
  page : Option Nat
  bounds : fz_rect
  currentlyLoadedPageNo : Nat
  pageNo : Nat
  matches_ : List fz_rect
  matchesCount : Int
  matchIdx : Int
  matchingFor : Option String
  loadLog : List Nat
  searchLog : List Int
deriving DecidableEq

/-- A freshly constructed `Document`, with the member initialisers of `Viewer.hpp`. -/
def Document.new (bounds : fz_rect) (ms : List fz_rect) : Document :=
  { page := none, bounds := bounds, currentlyLoadedPageNo := 4294967295, pageNo := 0,
    matches_ := ms, matchesCount := 0, matchIdx := -1, matchingFor := none,
    loadLog := [], searchLog := [] }

/-- Method `Document::getPages`. -/
def Document.getPages (eng : Engine) : Nat :=
  if eng.fz_count_pages ≥ 0 then eng.fz_count_pages.toNat else 0

/-- Method `Document::ensureCurrentPageLoaded`. -/
def Document.ensureCurrentPageLoaded (eng : Engine) (d : Document) : Document :=
  if d.currentlyLoadedPageNo ≠ d.pageNo then
    { d with page := some d.pageNo, bounds := eng.fz_bound_page d.pageNo,
             currentlyLoadedPageNo := d.pageNo, loadLog := d.loadLog ++ [d.pageNo] }
  else d

/-- Method `Document::resetFind`. -/
def Document.resetFind (d : Document) : Document :=
  { d with matchesCount := 0, matchIdx := 0 }

/-- Method `Document::gotoPage`. -/
def Document.gotoPage (eng : Engine) (d : Document) (page : Nat) : Bool × Document :=
  if page < Document.getPages eng then
    let d1 := d.resetFind
    let d2 := { d1 with pageNo := page }
    (true, Document.ensureCurrentPageLoaded eng d2)
  else (false, d)

/-- Method `Document::next`, `pageNo + 1` in `unsigned int`. -/
def Document.next (eng : Engine) (d : Document) : Bool × Document :=
  Document.gotoPage eng d ((d.pageNo + 1) % 4294967296)

/-- Method `Document::prev`, `pageNo - 1` in `unsigned int`. -/
def Document.prev (eng : Engine) (d : Document) : Bool × Document :=
  Document.gotoPage eng d ((d.pageNo + 4294967296 - 1) % 4294967296)

/-- Method `Document::getCurrentMatch`. -/
def Document.getCurrentMatch (d : Document) : Option Int :=
  if d.matchesCount > 0 then some d.matchIdx else none

/-- Value of `scanPages` when it returns: the count, `*outPage`, and the
document and iterator it leaves. -/
structure ScanResult where
  cnt : Int
  outPage : Int
  doc : Document
  iter : PageIterator

/-- The `while (page >= 0)` loop of `Document::scanPages`. -/
def Document.scanLoop (eng : Engine) :
    Nat → Document → PageIterator → Int → Int → Except Fault ScanResult
  | 0, _, _, _, _ => Except.error Fault.outOfFuel
  | fuel + 1, d, iter, outPage, page =>
    if page ≥ 0 then
      let found := fz_search_page_number eng page d.matchingFor MATCH_LIMIT
      let d1 := { d with matches_ := found ++ d.matches_.drop found.length,
                         searchLog := d.searchLog ++ [page] }
      let cnt : Int := found.length
      if cnt > 0 then
        Except.ok { cnt := cnt, outPage := page, doc := d1, iter := iter }
      else
        match iter.next with
        | Except.error e => Except.error e
        | Except.ok (p, iter1) => Document.scanLoop eng fuel d1 iter1 outPage p
    else
      Except.ok { cnt := 0, outPage := outPage, doc := d, iter := iter }

/-- Method `Document::scanPages`. -/
def Document.scanPages (eng : Engine) (fuel : Nat) (d : Document) (iter : PageIterator)
    (outPage : Int) : Except Fault ScanResult :=
  Document.scanLoop eng fuel d iter outPage iter.current

/-- Method `Document::gotoNextPageWithOccurrence`.  `foundOnPage` is non-negative
whenever `cnt > 0`, so its conversion to `unsigned int` for `gotoPage` is `Int.toNat`. -/
def Document.gotoNextPageWithOccurrence (eng : Engine) (fuel : Nat) (d : Document)
    (iter : PageIterator) : Except Fault (Option Int × Document) :=
  match Document.scanPages eng fuel d iter 0 with
  | Except.error e => Except.error e
  | Except.ok r =>
    if r.cnt > 0 then
      let d1 := (Document.gotoPage eng r.doc r.outPage.toNat).2
      let d2 := { d1 with matchesCount := r.cnt }
      let d3 := { d2 with matchIdx :=
        if r.iter.dir = Direction.BACKWARD then d2.matchesCount - 1 else 0 }
      let d4 := { d3 with matches_ := stdSort d3.matches_ d3.matchesCount.toNat }
      Except.ok (some d4.matchIdx, d4)
    else
      Except.ok (none, r.doc)

/-- Method `Document::find`. -/
def Document.find (eng : Engine) (fuel : Nat) (d : Document) (s : String) :
    Except Fault (Option Int × Document) :=
  let d0 := if d.matchingFor ≠ none ∧ d.matchingFor ≠ some s
    then { d with matchingFor := none } else d
  let d1 := { d0 with matchingFor := some s }
  let d2 := d1.resetFind
  let iter := PageIterator.new d2.pageNo (Document.getPages eng) Direction.FORWARD
  Document.gotoNextPageWithOccurrence eng fuel d2 iter

/-- Method `Document::findNext`. -/
def Document.findNext (eng : Engine) (fuel : Nat) (d : Document) (dir : Direction) :
    Except Fault (Option Int × Document) :=
  if d.matchingFor ≠ none then
    if (d.matchIdx < d.matchesCount - 1 ∧ dir = Direction.FORWARD)
        ∨ (d.matchIdx > 0 ∧ dir = Direction.BACKWARD) then
      let d1 := { d with matchIdx := d.matchIdx + dir.toInt }
      Except.ok (some d1.matchIdx, d1)
    else
      let iter := PageIterator.new d.pageNo (Document.getPages eng) dir
      match iter.next with
      | Except.error e => Except.error e
      | Except.ok (_, iter1) => Document.gotoNextPageWithOccurrence eng fuel d iter1
  else
    Except.ok (none, d)

/-- The rectangle a match pointer `&matches[i]` points at. -/
def Document.matchAt (d : Document) (i : Int) : Option fz_rect :=
  if 0 ≤ i then d.matches_[i.toNat]? else none

/-- The match list: the cells `matches[0 .. matchesCount)`. -/
def Document.matchList (d : Document) : List fz_rect :=
  d.matches_.take d.matchesCount.toNat

/-- Page reached from `start` after `k` steps in direction `dir`, cyclically. -/
def pageAt (start total : Int) (dir : Direction) (k : Nat) : Int :=
  (start + (k : Int) * dir.toInt) % total

/-- Page `p` has at least one occurrence of `q`. -/
def hasMatch (eng : Engine) (q : String) (p : Int) : Prop :=
  eng.hits p (some q) ≠ []

instance hasMatch.decidable (eng : Engine) (q : String) (p : Int) :
    Decidable (hasMatch eng q p) := by
  unfold hasMatch; infer_instance

/-- The document has a current match for `q`: the current page is in range, `q` is the
bound query, the match list is the sorted result of the single-page search on the current
page, and the cursor stands on one of its entries. -/
def Document.onMatch (eng : Engine) (q : String) (d : Document) : Prop :=
  d.pageNo < Document.getPages eng
  ∧ d.matchingFor = some q
  ∧ d.matchesCount
      = ((fz_search_page_number eng d.pageNo (some q) MATCH_LIMIT).length : Int)
  ∧ d.matchList
      = List.insertionSort matchLe (fz_search_page_number eng d.pageNo (some q) MATCH_LIMIT)
  ∧ 0 ≤ d.matchIdx ∧ d.matchIdx < d.matchesCount

/-- Iterator over `total` pages from `start` that has advanced `k` times. -/
def iterAt (start total : Int) (dir : Direction) (k : Nat) : PageIterator :=
  { start := start, nPages := total, dir := dir, current := pageAt start total dir k }

/-- Pages searched by a scan that starts at step `k` and searches `len` pages. -/
def scanned (s n : Int) (dir : Direction) (k len : Nat) : List Int :=
  (List.range' k len).map (pageAt s n dir)

/-- State in which `gotoNextPageWithOccurrence` leaves the document when its scan,
having searched the pages `log`, stops on page `P`. -/
def landOn (eng : Engine) (d : Document) (dir : Direction) (P : Int) (log : List Int) :
    Document :=
  let found := fz_search_page_number eng P d.matchingFor MATCH_LIMIT
  let d0 := { d with matches_ := found ++ d.matches_.drop found.length,
                     searchLog := d.searchLog ++ log }
  let d1 := (Document.gotoPage eng d0 P.toNat).2
  { d1 with matchesCount := (found.length : Int),
            matchIdx := if dir = Direction.BACKWARD then (found.length : Int) - 1 else 0,
            matches_ := stdSort d1.matches_ found.length }

/-- State from which the scan of `find` starts. -/
def findStart (d : Document) (q : String) : Document :=
  { d with matchingFor := some q, matchesCount := 0, matchIdx := 0 }

/-- The cursor cannot move within the match list of the current page in direction
`dir`: it stands on the last match going forward, on the first going backward, or the
list is empty (the cursor then being 0, or -1 before the first search). -/
def cursorBlocked (d : Document) (dir : Direction) : Prop :=
  match dir with
  | Direction.FORWARD => d.matchesCount - 1 ≤ d.matchIdx
  | Direction.BACKWARD => d.matchIdx ≤ 0

instance cursorBlocked.decidable (d : Document) (dir : Direction) :
    Decidable (cursorBlocked d dir) := by
  cases dir <;> (unfold cursorBlocked; infer_instance)

/-! ## Concrete documents used to exercise the statements -/

/-- A five-page document whose only occurrence of `"a"` is on page 4. -/
def eng5 : Engine where
  fz_count_pages := 5
  fz_bound_page := fun _ => ⟨0, 0, 612, 792⟩
  hits := fun p needle => if p = 4 ∧ needle = some "a" then [⟨72, 100, 80, 112⟩] else []

/-- A three-page document with two occurrences of `"a"` on page 0, listed out of
reading order, and one on page 2. -/
def eng3 : Engine where
  fz_count_pages := 3
  fz_bound_page := fun _ => ⟨0, 0, 612, 792⟩
  hits := fun p needle =>
    if needle = some "a" then
      if p = 0 then [⟨72, 300, 80, 312⟩, ⟨72, 100, 80, 112⟩]
      else if p = 2 then [⟨90, 50, 98, 62⟩]
      else []
    else []

/-- A one-page document with two occurrences of `"a"`. -/
def eng1 : Engine where
  fz_count_pages := 1
  fz_bound_page := fun _ => ⟨0, 0, 612, 792⟩
  hits := fun p needle =>
    if p = 0 ∧ needle = some "a" then [⟨72, 300, 80, 312⟩, ⟨72, 100, 80, 112⟩] else []

/-- A freshly constructed document. -/
def doc0 : Document := Document.new ⟨0, 0, 0, 0⟩ []

/-- A fresh document on which the query `"a"` has been bound. -/
def docA : Document := { doc0 with matchingFor := some "a" }

/-- The state `find "a"` leaves from `doc0` on `eng3`, `eng2` and `eng1` alike: on page 0,
with its two occurrences in reading order and the cursor on the first. -/
def docP0 : Document :=
  { page := some 0, bounds := ⟨0, 0, 612, 792⟩, currentlyLoadedPageNo := 0, pageNo := 0,
    matches_ := [⟨72, 100, 80, 112⟩, ⟨72, 300, 80, 312⟩], matchesCount := 2, matchIdx := 0,
    matchingFor := some "a", loadLog := [0], searchLog := [0] }

/-- The state `docP0` with the cursor on the last of its two matches. -/
def docP0last : Document := { docP0 with matchIdx := 1 }

/-- The state `find "a"` leaves from `doc0` on the five-page document `eng5`. -/
def doc5 : Document :=
  { page := some 4, bounds := ⟨0, 0, 612, 792⟩, currentlyLoadedPageNo := 4, pageNo := 4,
    matches_ := [⟨72, 100, 80, 112⟩], matchesCount := 1, matchIdx := 0,
    matchingFor := some "a", loadLog := [4], searchLog := [0, 1, 2, 3, 4] }

/-- The state `findNext(FORWARD)` leaves from `docP0last` on `eng3`: on page 2. -/
def docP2 : Document :=
  { page := some 2, bounds := ⟨0, 0, 612, 792⟩, currentlyLoadedPageNo := 2, pageNo := 2,
    matches_ := [⟨90, 50, 98, 62⟩, ⟨72, 300, 80, 312⟩], matchesCount := 1, matchIdx := 0,
    matchingFor := some "a", loadLog := [0, 2], searchLog := [0, 1, 2] }

/-! ## The viewer -/

/-- Conversion of a `float` to `int`: truncation toward zero. -/
def floatToInt (q : ℚ) : Int := if 0 ≤ q then ⌊q⌋ else ⌈q⌉

/-- Constant `Viewer::scroll`. -/
def scroll : Int := 20

/-- Constant `Viewer::zoom`, the literal `1.142857`. -/
def zoom : ℚ := 1142857 / 1000000

/-- Constant `Viewer::maxScale`. -/
def maxScale : ℚ := 2

/-- Constant `Viewer::minScale`. -/
def minScale : ℚ := 1 / 10

/-- Engine call `fz_transform_rect` with the matrix of `fz_scale(s, s)`. -/
def fz_transform_rect (r : fz_rect) (s : ℚ) : fz_rect :=
  if s < 0 then ⟨r.x1 * s, r.y1 * s, r.x0 * s, r.y0 * s⟩
  else ⟨r.x0 * s, r.y0 * s, r.x1 * s, r.y1 * s⟩

/-- What `fz_open_document` hands back: the engine of the file, whether it needs a
password, and which passwords `fz_authenticate_password` accepts. -/
structure DocFile where
  engine : Engine
  needsPassword : Bool
  authenticate : String → Bool

/-- The collaborators of `Document::open`: `fz_open_document` (`none` when it throws) and
the answer of the user to prompt number `k` of `show_msg_user_input` (`none` when the
prompt is cancelled, the `-1` result). -/
structure OpenEnv where
  fz_open_document : String → Option DocFile
  show_msg_user_input : Nat → Option String

/-- An object of `class Document`: the engine handle `doc` with the page and find state. -/
structure DocObject where
  doc : Option DocFile
  st : Document

/-- Constructor `Document::Document(ctx)`; `b` and `ms` are the indeterminate initial
contents of `bounds` and `matches`. -/
def DocObject.new (b : fz_rect) (ms : List fz_rect) : DocObject :=
  { doc := none, st := Document.new b ms }

/-- The `while (!okay)` loop of `Document::open`, from prompt number `k` on. -/
def DocObject.passwordLoop (env : OpenEnv) (f : DocFile) : Nat → Nat → Except Fault Bool
  | 0, _ => Except.error Fault.outOfFuel
  | fuel + 1, k =>
    match env.show_msg_user_input k with
    | none => Except.ok false
    | some password =>
      if f.authenticate password then Except.ok true
      else DocObject.passwordLoop env f fuel (k + 1)

/-- Method `Document::open`. -/
def DocObject.open (env : OpenEnv) (fuel : Nat) (o : DocObject) (path : String) :
    Except Fault (Bool × DocObject) :=
  match env.fz_open_document path with
  | none => Except.ok (false, o)
  | some f =>
    let o1 := { o with doc := some f }
    if f.needsPassword then
      match DocObject.passwordLoop env f fuel 0 with
      | Except.error e => Except.error e
      | Except.ok okay => if ¬ okay then Except.ok (false, o1) else Except.ok (true, o1)
    else Except.ok (true, o1)

/-- The state of `class Viewer`. -/
structure Viewer where
  bounds : fz_rect
  transform : ℚ
  scale : ℚ
  xPos : Int
  yPos : Int
  fitWidth : Bool
  width : Int
  height : Int
  doc : Option DocObject
  inverted : List fz_rect
  msgs : List String

/-- Constructor `Viewer::Viewer()`, for a display of `width` by `height`; `b` and `t` are
the indeterminate initial contents of `bounds` and `transform`. -/
def Viewer.new (width height : Int) (b : fz_rect) (t : ℚ) : Viewer :=
  { bounds := b, transform := t, scale := 1, xPos := 0, yPos := 0, fitWidth := true,
    width := width, height := height, doc := none, inverted := [], msgs := [] }

/-- Method `Viewer::invertPixels`; the rectangle logged is the one handed to
`fz_round_rect`. -/
def Viewer.invertPixels (v : Viewer) (rect : fz_rect) : Viewer :=
  { v with inverted := v.inverted ++ [fz_transform_rect rect v.transform] }

/-- Method `Viewer::ensureInView`. -/
def Viewer.ensureInView (v : Viewer) (rect : fz_rect) : Viewer :=
  let v1 :=
    if (v.xPos : ℚ) > rect.x0 ∨ ((v.xPos + v.width : Int) : ℚ) < rect.x1 then
      { v with xPos := floatToInt ((rect.x0 + rect.x1) / 2 - ((Int.tdiv v.width 2 : Int) : ℚ)) }
    else v
  if (v1.yPos : ℚ) > rect.y0 ∨ ((v1.yPos + v1.height : Int) : ℚ) < rect.y1 then
    { v1 with yPos := floatToInt ((rect.y0 + rect.y1) / 2 - ((Int.tdiv v1.height 2 : Int) : ℚ)) }
  else v1

/-- Method `Viewer::fixBounds`. -/
def Viewer.fixBounds (v : Viewer) : Viewer :=
  let boundsWidth := floatToInt (v.bounds.x1 - v.bounds.x0)
  let boundsHeight := floatToInt (v.bounds.y1 - v.bounds.y0)
  let maxAllowedWidth := boundsWidth - min v.width boundsWidth
  let maxAllowedHeight := boundsHeight - min v.height boundsHeight
  let v1 :=
    if v.xPos < 0 ∨ boundsWidth ≤ v.width then { v with xPos := 0 }
    else { v with xPos := min v.xPos maxAllowedWidth }
  if v1.yPos < 0 ∨ boundsHeight ≤ v1.height then { v1 with yPos := 0 }
  else { v1 with yPos := min v1.yPos maxAllowedHeight }

/-- Dereference of the pointer `Document::getCurrentMatch` returns, for `invertPixels`. -/
def Viewer.invertCurrentMatch (v : Viewer) (st : Document) : Except Fault Viewer :=
  match st.getCurrentMatch with
  | none => Except.ok v
  | some i =>
    match st.matchAt i with
    | none => Except.error Fault.unreadable
    | some r => Except.ok (v.invertPixels r)

/-- Method `Viewer::drawPage`. -/
def Viewer.drawPage (v : Viewer) : Except Fault Viewer :=
  match v.doc with
  | none => Except.error Fault.nullPointer
  | some o =>
    match o.doc with
    | none => Except.error Fault.nullPointer
    | some f =>
      let st := Document.ensureCurrentPageLoaded f.engine o.st
      let v1 := { v with doc := some { o with st := st }, inverted := [], bounds := st.bounds }
      let v2 :=
        if v1.fitWidth then { v1 with scale := (v1.width : ℚ) / (v1.bounds.x1 - v1.bounds.x0) }
        else v1
      let v3 := { v2 with transform := v2.scale }
      let v4 := { v3 with bounds := fz_transform_rect v3.bounds v3.transform }
      let v5 := v4.fixBounds
      v5.invertCurrentMatch st

/-- The common body of `Viewer::find` and `Viewer::findNext`, around the call `search`
of `doc->find` or `doc->findNext`. -/
def Viewer.findWith (v : Viewer)
    (search : Engine → Document → Except Fault (Option Int × Document)) :
    Except Fault (Bool × Viewer) :=
  match v.doc with
  | none => Except.error Fault.nullPointer
  | some o =>
    match o.doc with
    | none => Except.error Fault.nullPointer
    | some f =>
      match v.invertCurrentMatch o.st with
      | Except.error e => Except.error e
      | Except.ok v1 =>
        match search f.engine o.st with
        | Except.error e => Except.error e
        | Except.ok (none, st1) =>
          Except.ok (false, { v1 with doc := some { o with st := st1 } })
        | Except.ok (some i, st1) =>
          match st1.matchAt i with
          | none => Except.error Fault.unreadable
          | some r =>
            let v2 := { v1 with doc := some { o with st := st1 } }
            match (v2.ensureInView r).drawPage with
            | Except.error e => Except.error e
            | Except.ok v3 => Except.ok (true, v3)

/-- Method `Viewer::find`. -/
def Viewer.find (fuel : Nat) (v : Viewer) (s : String) : Except Fault (Bool × Viewer) :=
  v.findWith (fun eng st => Document.find eng fuel st s)

/-- Method `Viewer::findNext`. -/
def Viewer.findNext (fuel : Nat) (v : Viewer) (dir : Direction) :
    Except Fault (Bool × Viewer) :=
  v.findWith (fun eng st => Document.findNext eng fuel st dir)

/-- Method `Viewer::openDoc`; `b` and `ms` are the indeterminate initial contents of the
new `Document`. -/
def Viewer.openDoc (env : OpenEnv) (fuel : Nat) (v : Viewer) (path : String)
    (b : fz_rect) (ms : List fz_rect) : Except Fault Viewer :=
  let d := DocObject.new b ms
  match d.open env fuel path with
  | Except.error e => Except.error e
  | Except.ok (success, d1) =>
    let v1 := { v with doc := some d1 }
    if ¬ success then Except.ok { v1 with msgs := v1.msgs ++ ["Can't open document"] }
    else Except.ok v1

/-- Method `Viewer::scrollUp`. -/
def Viewer.scrollUp (v : Viewer) : Viewer :=
  if v.yPos > 0 then
    let v1 := { v with yPos := v.yPos - scroll }
    { v1 with yPos := if v1.yPos < 0 then 0 else v1.yPos }
  else v

/-- Method `Viewer::scrollDown`. -/
def Viewer.scrollDown (v : Viewer) : Viewer :=
  if (v.yPos : ℚ) < (v.bounds.y1 - v.bounds.y0) - (v.height : ℚ) then
    let v1 := { v with yPos := v.yPos + scroll }
    let y : ℚ :=
      if (v1.yPos : ℚ) > (v1.bounds.y1 - v1.bounds.y0) - (v1.height : ℚ)
      then (v1.bounds.y1 - v1.bounds.y0) - (v1.height : ℚ) else (v1.yPos : ℚ)
    { v1 with yPos := floatToInt y }
  else v

/-- Method `Viewer::scrollLeft`. -/
def Viewer.scrollLeft (v : Viewer) : Viewer :=
  if v.xPos > 0 then
    let v1 := { v with xPos := v.xPos - scroll }
    { v1 with xPos := if v1.xPos < 0 then 0 else v1.xPos }
  else v

/-- Method `Viewer::scrollRight`. -/
def Viewer.scrollRight (v : Viewer) : Viewer :=
  if (v.xPos : ℚ) < (v.bounds.x1 - v.bounds.x0) - (v.width : ℚ) then
    let v1 := { v with xPos := v.xPos + scroll }
    let x : ℚ :=
      if (v1.xPos : ℚ) > (v1.bounds.x1 - v1.bounds.x0) - (v1.width : ℚ)
      then (v1.bounds.x1 - v1.bounds.x0) - (v1.width : ℚ) else (v1.xPos : ℚ)
    { v1 with xPos := floatToInt x }
  else v

/-- Method `Viewer::setFitWidth`. -/
def Viewer.setFitWidth (v : Viewer) : Except Fault Viewer :=
  Viewer.drawPage { v with fitWidth := true }

/-- Method `Viewer::unsetFitWidth`. -/
def Viewer.unsetFitWidth (v : Viewer) : Viewer :=
  { v with fitWidth := false }

/-- Method `Viewer::zoomIn`. -/
def Viewer.zoomIn (v : Viewer) : Except Fault Viewer :=
  if v.scale * zoom ≤ maxScale then
    let v1 := { v with fitWidth := false }
    let x : Int := v1.xPos + Int.tdiv (min v1.width (floatToInt (v1.bounds.x1 - v1.bounds.x0))) 2
    let v2 := { v1 with xPos := floatToInt ((x : ℚ) * zoom) }
    let xs : Int := Int.tdiv (min v2.width (floatToInt ((v2.bounds.x1 - v2.bounds.x0) * zoom))) 2
    let v3 := { v2 with xPos := v2.xPos - xs }
    let y : Int := v3.yPos + Int.tdiv (min v3.height (floatToInt (v3.bounds.y1 - v3.bounds.y0))) 2
    let v4 := { v3 with yPos := floatToInt ((y : ℚ) * zoom) }
    let ys : Int := Int.tdiv (min v4.height (floatToInt ((v4.bounds.y1 - v4.bounds.y0) * zoom))) 2
    let v5 := { v4 with yPos := v4.yPos - ys }
    Viewer.drawPage { v5 with scale := v5.scale * zoom }
  else Except.ok v

/-- Method `Viewer::zoomOut`. -/
def Viewer.zoomOut (v : Viewer) : Except Fault Viewer :=
  if v.scale / zoom ≥ minScale then
    let v1 := { v with fitWidth := false }
    let x : Int := v1.xPos + Int.tdiv (min v1.width (floatToInt (v1.bounds.x1 - v1.bounds.x0))) 2
    let v2 := { v1 with xPos := floatToInt ((x : ℚ) / zoom) }
    let xs : Int := Int.tdiv (min v2.width (floatToInt ((v2.bounds.x1 - v2.bounds.x0) / zoom))) 2
    let v3 := { v2 with xPos := v2.xPos - xs }
    let y : Int := v3.yPos + Int.tdiv (min v3.height (floatToInt (v3.bounds.y1 - v3.bounds.y0))) 2
    let v4 := { v3 with yPos := floatToInt ((y : ℚ) / zoom) }
    let ys : Int := Int.tdiv (min v4.height (floatToInt ((v4.bounds.y1 - v4.bounds.y0) / zoom))) 2
    let v5 := { v4 with yPos := v4.yPos - ys }
    Viewer.drawPage { v5 with scale := v5.scale / zoom }
  else Except.ok v

/-- One axis of `Viewer::fixBounds`: the pan `pos` clamped for a content of `content`
pixels on a display of `size` pixels. -/
def clampAxis (pos size content : Int) : Int :=
  if pos < 0 ∨ content ≤ size then 0 else min pos (content - min size content)

/-- Width of the transformed page, `static_cast<int>(bounds.x1 - bounds.x0)`. -/
def Viewer.boundsWidth (v : Viewer) : Int := floatToInt (v.bounds.x1 - v.bounds.x0)

/-- Height of the transformed page, `static_cast<int>(bounds.y1 - bounds.y0)`. -/
def Viewer.boundsHeight (v : Viewer) : Int := floatToInt (v.bounds.y1 - v.bounds.y0)

/-- A viewer showing a transformed page of 500 by 1000 on a display of 320 by 240, with
the pan at (100, 750). -/
def viewA : Viewer :=
  { bounds := ⟨0, 0, 500, 1000⟩, transform := 1, scale := 1, xPos := 100, yPos := 750,
    fitWidth := false, width := 320, height := 240, doc := none, inverted := [], msgs := [] }

/-- The viewer `viewA` with the pan out of range on both axes. -/
def viewB : Viewer := { viewA with xPos := 700, yPos := -5 }

/-- A one-page document whose page is 100 by 150, narrower than the display. -/
def engSmall : Engine where
  fz_count_pages := 1
  fz_bound_page := fun _ => ⟨0, 0, 100, 150⟩
  hits := fun _ _ => []

/-- The file of `engSmall`, without password. -/
def fileSmall : DocFile where
  engine := engSmall
  needsPassword := false
  authenticate := fun _ => true

/-- A file like `fileSmall` that needs the password `"pw"`. -/
def fileSecret : DocFile where
  engine := engSmall
  needsPassword := true
  authenticate := fun password => password == "pw"

/-- A file system holding `small.pdf` and `secret.pdf` only, and a user who cancels every
password prompt. -/
def envSmall : OpenEnv where
  fz_open_document := fun path =>
    if path = "small.pdf" then some fileSmall
    else if path = "secret.pdf" then some fileSecret
    else none
  show_msg_user_input := fun _ => none

/-- A freshly constructed viewer for a display of 320 by 240. -/
def view0 : Viewer := Viewer.new 320 240 ⟨0, 0, 0, 0⟩ 0

/-- The viewer `view0` after `openDoc("small.pdf")`. -/
def viewS1 : Viewer := { view0 with doc := some { doc := some fileSmall, st := doc0 } }

/-- The viewer `viewS1` after `drawPage()`: fit-to-width has set the scale to 320 / 100. -/
def viewS2 : Viewer :=
  { bounds := ⟨0, 0, 320, 480⟩, transform := 16 / 5, scale := 16 / 5, xPos := 0, yPos := 0,
    fitWidth := true, width := 320, height := 240,
    doc := some { doc := some fileSmall,
                  st := { doc0 with page := some 0, bounds := ⟨0, 0, 100, 150⟩,
                                    currentlyLoadedPageNo := 0, loadLog := [0] } },
    inverted := [], msgs := [] }

/-- The viewer `viewS2` after `zoomOut()`. -/
def viewS3 : Viewer :=
  { bounds := ⟨0, 0, 100 * (16 / 5 / zoom), 150 * (16 / 5 / zoom)⟩,
    transform := 16 / 5 / zoom, scale := 16 / 5 / zoom, xPos := 0, yPos := 0,
    fitWidth := false, width := 320, height := 240,
    doc := some { doc := some fileSmall,
                  st := { doc0 with page := some 0, bounds := ⟨0, 0, 100, 150⟩,
                                    currentlyLoadedPageNo := 0, loadLog := [0] } },
    inverted := [], msgs := [] }

/-- A one-page letter-size document with one occurrence of `"a"`, at (72, 300)-(80, 312). -/
def engL : Engine where
  fz_count_pages := 1
  fz_bound_page := fun _ => ⟨0, 0, 612, 792⟩
  hits := fun p needle => if p = 0 ∧ needle = some "a" then [⟨72, 300, 80, 312⟩] else []

/-- The file of `engL`, without password. -/
def fileL : DocFile where
  engine := engL
  needsPassword := false
  authenticate := fun _ => true

/-- The document state of `engL` once page 0 is loaded. -/
def stL1 : Document :=
  { doc0 with page := some 0, bounds := ⟨0, 0, 612, 792⟩, currentlyLoadedPageNo := 0,
              loadLog := [0] }

/-- The document state `find "a"` leaves from `stL1` on `engL`. -/
def stL2 : Document :=
  { stL1 with matches_ := [⟨72, 300, 80, 312⟩], matchesCount := 1, matchIdx := 0,
              matchingFor := some "a", searchLog := [0] }

/-- The fresh viewer `view0` holding the opened document of `fileL`. -/
def viewL0 : Viewer := { view0 with doc := some { doc := some fileL, st := doc0 } }

/-- The viewer `viewL0` after `drawPage()`: fit-to-width has set the scale to 320 / 612. -/
def viewL1 : Viewer :=
  { bounds := ⟨0, 0, 320, 7040 / 17⟩, transform := 80 / 153, scale := 80 / 153,
    xPos := 0, yPos := 0, fitWidth := true, width := 320, height := 240,
    doc := some { doc := some fileL, st := stL1 }, inverted := [], msgs := [] }

/-- The viewer `viewL1` after `find("a")`. -/
def viewL2 : Viewer :=
  { viewL1 with yPos := 174, doc := some { doc := some fileL, st := stL2 },
                inverted := [⟨640 / 17, 8000 / 51, 6400 / 153, 8320 / 51⟩] }

/-- The match of `engL` as drawn and highlighted at the fit-to-width scale 80 / 153. -/
def rectL : fz_rect := fz_transform_rect ⟨72, 300, 80, 312⟩ (80 / 153)

/-- A document for which the engine reports no pages. -/
def eng0 : Engine where
  fz_count_pages := 0
  fz_bound_page := fun _ => ⟨0, 0, 0, 0⟩
  hits := fun _ _ => []

/-- The document states reachable from a freshly constructed `Document` by calls of
`gotoPage`, `next`, `prev`, `find` and `findNext` that return, each `find` and `findNext`
with its own fuel. -/
inductive Document.Reachable (eng : Engine) : Document → Prop
  | fresh (b : fz_rect) (ms : List fz_rect) : Document.Reachable eng (Document.new b ms)
  | gotoPage {d : Document} (n : Nat) :
      Document.Reachable eng d → Document.Reachable eng (Document.gotoPage eng d n).2
  | next {d : Document} :
      Document.Reachable eng d → Document.Reachable eng (Document.next eng d).2
  | prev {d : Document} :
      Document.Reachable eng d → Document.Reachable eng (Document.prev eng d).2
  | find {d d' : Document} (fuel : Nat) (q : String) (res : Option Int) :
      Document.Reachable eng d → Document.find eng fuel d q = Except.ok (res, d') →
      Document.Reachable eng d'
  | findNext {d d' : Document} (fuel : Nat) (dir : Direction) (res : Option Int) :
      Document.Reachable eng d → Document.findNext eng fuel d dir = Except.ok (res, d') →
      Document.Reachable eng d'

/-- The cursor invariant: at most `MATCH_LIMIT` matches, all of them written cells, and
the cursor on one of them when there are any (on 0 or -1 when there are none). -/
def Document.cursorInv (d : Document) : Prop :=
  0 ≤ d.matchesCount ∧ d.matchesCount ≤ (MATCH_LIMIT : Int)
  ∧ d.matchesCount.toNat ≤ d.matches_.length
  ∧ (0 < d.matchesCount → 0 ≤ d.matchIdx ∧ d.matchIdx < d.matchesCount)
  ∧ (d.matchesCount = 0 → -1 ≤ d.matchIdx ∧ d.matchIdx ≤ 0)

/-- The engine finds occurrences on pages of the document only. -/
def Engine.hitsInRange (eng : Engine) : Prop :=
  ∀ (p : Int) (needle : Option String),
    ¬ (0 ≤ p ∧ p < (Document.getPages eng : Int)) → eng.hits p needle = []

/-- The match list invariant: the current page is a page of the document when it has
any; with no matches the cursor is 0 or -1; with matches, the page loaded is the current
one and the document has a current match for its query (`Document.onMatch`). -/
def Document.listInv (eng : Engine) (d : Document) : Prop :=
  (1 ≤ Document.getPages eng → d.pageNo < Document.getPages eng)
  ∧ 0 ≤ d.matchesCount
  ∧ (d.matchesCount = 0 → -1 ≤ d.matchIdx ∧ d.matchIdx ≤ 0)
  ∧ (0 < d.matchesCount →
      d.currentlyLoadedPageNo = d.pageNo ∧ ∃ q, Document.onMatch eng q d)

/-- A document of 2147483647 pages, the largest count an `int` holds, with one
occurrence of `"a"` on each of the pages 0 and 1 and one occurrence of `"b"` on page 1. -/
def engHuge : Engine where
  fz_count_pages := 2147483647
  fz_bound_page := fun _ => ⟨0, 0, 612, 792⟩
  hits := fun p needle =>
    if needle = some "a" then
      if p = 0 ∨ p = 1 then [⟨72, 100, 80, 112⟩] else []
    else if needle = some "b" then
      if p = 1 then [⟨72, 100, 80, 112⟩] else []
    else []

/-- The state a `find "b"` that returns `nullptr` leaves on `engHuge` from page 0. -/
def docHb : Document :=
  { doc0 with matchingFor := some "b", matchesCount := 0, matchIdx := 0, searchLog := [0] }

/-- An engine that reports no pages and yet two occurrences of `"a"` for page index 0. -/
def engStray : Engine where
  fz_count_pages := 0
  fz_bound_page := fun _ => ⟨0, 0, 0, 0⟩
  hits := fun p needle =>
    if p = 0 ∧ needle = some "a" then [⟨72, 300, 80, 312⟩, ⟨72, 100, 80, 112⟩] else []

/-- The state `find "a"` leaves from `doc0` on `engStray`: two matches stored, no page
loaded. -/
def docStray : Document :=
  { doc0 with matchingFor := some "a", matchesCount := 2, matchIdx := 0,
              matches_ := [⟨72, 100, 80, 112⟩, ⟨72, 300, 80, 312⟩], searchLog := [0] }

/-! ## Arithmetic of the cyclic walk -/

theorem dir_toInt_cases (dir : Direction) : dir.toInt = 1 ∨ dir.toInt = -1 := by
  cases dir
  · exact Or.inl rfl
  · exact Or.inr rfl

theorem pageAt_zero {s n : Int} (dir : Direction) (hs : 0 ≤ s) (hsn : s < n) :
    pageAt s n dir 0 = s := by
  simp [pageAt, Int.emod_eq_of_lt hs hsn]

theorem pageAt_nonneg {n : Int} (s : Int) (dir : Direction) (k : Nat) (hn : 0 < n) :
    0 ≤ pageAt s n dir k :=
  Int.emod_nonneg _ (ne_of_gt hn)

theorem pageAt_lt {n : Int} (s : Int) (dir : Direction) (k : Nat) (hn : 0 < n) :
    pageAt s n dir k < n :=
  Int.emod_lt_of_pos _ hn

theorem pageAt_succ (s n : Int) (dir : Direction) (k : Nat) :
    (pageAt s n dir k + dir.toInt) % n = pageAt s n dir (k + 1) := by
  unfold pageAt
  rw [Int.emod_add_emod]
  congr 1
  push_cast
  ring

theorem pageAt_eq_start_iff {s n : Int} (dir : Direction) (k : Nat) (hs : 0 ≤ s)
    (hsn : s < n) : pageAt s n dir k = s ↔ n ∣ (k : Int) := by
  unfold pageAt
  have h1 : (s + (k : Int) * dir.toInt) % n = s ↔
      (s + (k : Int) * dir.toInt) % n = s % n := by
    rw [Int.emod_eq_of_lt hs hsn]
  rw [h1, Int.emod_eq_emod_iff_emod_sub_eq_zero, ← Int.dvd_iff_emod_eq_zero]
  rcases dir_toInt_cases dir with h | h <;> rw [h] <;> simp

theorem wrapInt32_of_range {x : Int} (h0 : -2147483648 ≤ x) (h1 : x ≤ 2147483647) :
    wrapInt32 x = x := by
  unfold wrapInt32
  omega

/-- Up to `2^30` pages the remainder `next()` takes is that of the exact sum: the sum
does not wrap, except for `2^30` pages on the last page going forward, where it wraps to
`-2^31`, which has the same remainder 0. -/
theorem wrap_sum_tmod {n c : Int} (dir : Direction) (hn : 0 < n) (hov : n ≤ 1073741824)
    (hc : 0 ≤ c) (hcn : c < n) :
    Int.tmod (wrapInt32 (wrapInt32 (n + c) + dir.toInt)) n = (n + c + dir.toInt) % n := by
  have hd := dir_toInt_cases dir
  rw [wrapInt32_of_range (x := n + c) (by omega) (by omega)]
  by_cases hfit : n + c + dir.toInt ≤ 2147483647
  · rw [wrapInt32_of_range (by omega) hfit]
    exact Int.tmod_eq_emod (by omega) (le_of_lt hn)
  · have e1 : n = 1073741824 := by omega
    have e2 : c = 1073741823 := by omega
    have e3 : dir.toInt = 1 := by omega
    rw [e1, e2, e3]
    decide

theorem tmod_step {s n : Int} (dir : Direction) (k : Nat) (hn : 0 < n)
    (hov : n ≤ 1073741824) :
    Int.tmod (wrapInt32 (wrapInt32 (n + pageAt s n dir k) + dir.toInt)) n
      = pageAt s n dir (k + 1) := by
  rw [wrap_sum_tmod dir hn hov (pageAt_nonneg s dir k hn) (pageAt_lt s dir k hn),
    add_assoc, Int.add_emod_self_left, pageAt_succ]

theorem next_iterAt {s n : Int} (dir : Direction) (k : Nat) (hn : 0 < n)
    (hov : n ≤ 1073741824) (hs : 0 ≤ s)
    (hsn : s < n) (hk : ¬ n ∣ ((k + 1 : Nat) : Int)) :
    (iterAt s n dir k).next = Except.ok (pageAt s n dir (k + 1), iterAt s n dir (k + 1)) := by
  have hne : pageAt s n dir (k + 1) ≠ s := fun h =>
    hk ((pageAt_eq_start_iff dir (k + 1) hs hsn).1 h)
  simp [PageIterator.next, iterAt, ne_of_gt hn, tmod_step dir k hn hov, hne]

theorem next_iterAt_stop {s n : Int} (dir : Direction) (k : Nat) (hn : 0 < n)
    (hov : n ≤ 1073741824) (hs : 0 ≤ s)
    (hsn : s < n) (hk : n ∣ ((k + 1 : Nat) : Int)) :
    (iterAt s n dir k).next = Except.ok (-1, iterAt s n dir k) := by
  have he : pageAt s n dir (k + 1) = s := (pageAt_eq_start_iff dir (k + 1) hs hsn).2 hk
  simp [PageIterator.next, iterAt, ne_of_gt hn, tmod_step dir k hn hov, he]

theorem not_dvd_of_lt {n : Int} {k : Nat} (hk0 : 0 < k) (hkn : (k : Int) < n) :
    ¬ n ∣ ((k : Nat) : Int) := by
  intro h
  have := Int.le_of_dvd (by exact_mod_cast hk0) h
  omega

theorem new_eq_iterAt {s n : Int} (dir : Direction) (hs : 0 ≤ s) (hsn : s < n) :
    PageIterator.new s n dir = iterAt s n dir 0 := by
  simp [PageIterator.new, iterAt, pageAt_zero dir hs hsn]

/-! ## The scan loop -/

theorem scanned_succ (s n : Int) (dir : Direction) (k len : Nat) :
    scanned s n dir k (len + 1) = pageAt s n dir k :: scanned s n dir (k + 1) len := by
  simp [scanned, List.range'_succ]

theorem scanLoop_stop (eng : Engine) (f : Nat) (d : Document) (it : PageIterator)
    (out page : Int) (hp : page < 0) :
    Document.scanLoop eng (f + 1) d it out page
      = Except.ok { cnt := 0, outPage := out, doc := d, iter := it } := by
  simp [Document.scanLoop, not_le.2 hp]

/-- A scan over pages without an occurrence runs until the iterator is exhausted. -/
theorem scanLoop_none {s n : Int} (dir : Direction) (hn : 0 < n)
    (hov : n ≤ 1073741824) (hs : 0 ≤ s) (hsn : s < n)
    (eng : Engine) (out : Int) :
    ∀ (m k fuel : Nat) (d : Document), ((k + m + 1 : Nat) : Int) = n →
      (∀ i, k ≤ i → i ≤ k + m →
        fz_search_page_number eng (pageAt s n dir i) d.matchingFor MATCH_LIMIT = []) →
      m + 2 ≤ fuel →
      Document.scanLoop eng fuel d (iterAt s n dir k) out (pageAt s n dir k)
        = Except.ok { cnt := 0, outPage := out,
                      doc := { d with searchLog := d.searchLog ++ scanned s n dir k (m + 1) },
                      iter := iterAt s n dir (k + m) } := by
  intro m
  induction m with
  | zero =>
    intro k fuel d hk hnone hfuel
    obtain ⟨f, rfl⟩ : ∃ f, fuel = f + 2 := ⟨fuel - 2, by omega⟩
    have h0 := hnone k (le_refl _) (by omega)
    have hdvd : n ∣ ((k + 1 : Nat) : Int) := ⟨1, by rw [← hk]; simp⟩
    rw [Document.scanLoop]
    simp only [h0, pageAt_nonneg s dir k hn, ge_iff_le, if_true]
    simp only [List.length_nil, Nat.cast_zero, gt_iff_lt, lt_self_iff_false, if_false,
      next_iterAt_stop dir k hn hov hs hsn hdvd]
    rw [scanLoop_stop _ _ _ _ _ _ (by decide)]
    simp [scanned]
  | succ m ih =>
    intro k fuel d hk hnone hfuel
    obtain ⟨f, rfl⟩ : ∃ f, fuel = f + 1 := ⟨fuel - 1, by omega⟩
    have h0 := hnone k (le_refl _) (by omega)
    have hndvd : ¬ n ∣ ((k + 1 : Nat) : Int) :=
      not_dvd_of_lt (by omega) (by rw [← hk]; exact_mod_cast (by omega : k + 1 < k + (m + 1) + 1))
    rw [Document.scanLoop]
    simp only [h0, pageAt_nonneg s dir k hn, ge_iff_le, if_true]
    simp only [List.length_nil, Nat.cast_zero, gt_iff_lt, lt_self_iff_false, if_false,
      next_iterAt dir k hn hov hs hsn hndvd]
    simp only [List.nil_append, List.drop_zero]
    have e : k + 1 + m = k + (m + 1) := by omega
    rw [ih (k + 1) f { d with searchLog := d.searchLog ++ [pageAt s n dir k] }
      (by rw [e]; exact hk) (fun i hi1 hi2 => hnone i (by omega) (by omega)) (by omega)]
    simp [scanned_succ s n dir k (m + 1), e]

/-- A scan stops on the first page with an occurrence. -/
theorem scanLoop_hit {s n : Int} (dir : Direction) (hn : 0 < n)
    (hov : n ≤ 1073741824) (hs : 0 ≤ s) (hsn : s < n)
    (eng : Engine) (out : Int) :
    ∀ (m k fuel : Nat) (d : Document), ((k + m : Nat) : Int) < n →
      (∀ i, k ≤ i → i < k + m →
        fz_search_page_number eng (pageAt s n dir i) d.matchingFor MATCH_LIMIT = []) →
      fz_search_page_number eng (pageAt s n dir (k + m)) d.matchingFor MATCH_LIMIT ≠ [] →
      m + 1 ≤ fuel →
      Document.scanLoop eng fuel d (iterAt s n dir k) out (pageAt s n dir k)
        = Except.ok {
            cnt := ((fz_search_page_number eng (pageAt s n dir (k + m)) d.matchingFor
                      MATCH_LIMIT).length : Int),
            outPage := pageAt s n dir (k + m),
            doc := { d with
              matches_ :=
                fz_search_page_number eng (pageAt s n dir (k + m)) d.matchingFor MATCH_LIMIT
                  ++ d.matches_.drop (fz_search_page_number eng (pageAt s n dir (k + m))
                        d.matchingFor MATCH_LIMIT).length,
              searchLog := d.searchLog ++ scanned s n dir k (m + 1) },
            iter := iterAt s n dir (k + m) } := by
  intro m
  induction m with
  | zero =>
    intro k fuel d _ _ hhit hfuel
    obtain ⟨f, rfl⟩ : ∃ f, fuel = f + 1 := ⟨fuel - 1, by omega⟩
    have hpos : 0 < (fz_search_page_number eng (pageAt s n dir k) d.matchingFor
        MATCH_LIMIT).length := List.length_pos.2 hhit
    rw [Document.scanLoop]
    simp [pageAt_nonneg s dir k hn, hpos, scanned]
  | succ m ih =>
    intro k fuel d hk hnone hhit hfuel
    obtain ⟨f, rfl⟩ : ∃ f, fuel = f + 1 := ⟨fuel - 1, by omega⟩
    have h0 := hnone k (le_refl _) (by omega)
    have hndvd : ¬ n ∣ ((k + 1 : Nat) : Int) :=
      not_dvd_of_lt (by omega) (by omega)
    rw [Document.scanLoop]
    simp only [h0, pageAt_nonneg s dir k hn, ge_iff_le, if_true]
    simp only [List.length_nil, Nat.cast_zero, gt_iff_lt, lt_self_iff_false, if_false,
      next_iterAt dir k hn hov hs hsn hndvd]
    simp only [List.nil_append, List.drop_zero]
    have e : k + 1 + m = k + (m + 1) := by omega
    rw [ih (k + 1) f { d with searchLog := d.searchLog ++ [pageAt s n dir k] }
      (by rw [e]; exact hk) (fun i hi1 hi2 => hnone i (by omega) (by omega))
      (by rw [e]; exact hhit) (by omega)]
    simp [scanned_succ s n dir k (m + 1), e]

/-! ## Landing on a page with an occurrence -/

theorem gotoNext_hit {s n : Int} (dir : Direction) (hn : 0 < n)
    (hov : n ≤ 1073741824) (hs : 0 ≤ s) (hsn : s < n)
    (eng : Engine) (m k fuel : Nat) (d : Document) (hk : ((k + m : Nat) : Int) < n)
    (hnone : ∀ i, k ≤ i → i < k + m →
      fz_search_page_number eng (pageAt s n dir i) d.matchingFor MATCH_LIMIT = [])
    (hhit : fz_search_page_number eng (pageAt s n dir (k + m)) d.matchingFor MATCH_LIMIT ≠ [])
    (hfuel : m + 1 ≤ fuel) :
    Document.gotoNextPageWithOccurrence eng fuel d (iterAt s n dir k)
      = Except.ok
          (some (landOn eng d dir (pageAt s n dir (k + m)) (scanned s n dir k (m + 1))).matchIdx,
            landOn eng d dir (pageAt s n dir (k + m)) (scanned s n dir k (m + 1))) := by
  have hpos : 0 < (fz_search_page_number eng (pageAt s n dir (k + m)) d.matchingFor
      MATCH_LIMIT).length := List.length_pos.2 hhit
  have hcur : (iterAt s n dir k).current = pageAt s n dir k := rfl
  unfold Document.gotoNextPageWithOccurrence Document.scanPages
  rw [hcur, scanLoop_hit dir hn hov hs hsn eng 0 m k fuel d hk hnone hhit hfuel]
  simp [hpos, landOn, iterAt]

theorem gotoNext_none {s n : Int} (dir : Direction) (hn : 0 < n)
    (hov : n ≤ 1073741824) (hs : 0 ≤ s) (hsn : s < n)
    (eng : Engine) (m k fuel : Nat) (d : Document) (hk : ((k + m + 1 : Nat) : Int) = n)
    (hnone : ∀ i, k ≤ i → i ≤ k + m →
      fz_search_page_number eng (pageAt s n dir i) d.matchingFor MATCH_LIMIT = [])
    (hfuel : m + 2 ≤ fuel) :
    Document.gotoNextPageWithOccurrence eng fuel d (iterAt s n dir k)
      = Except.ok (none, { d with searchLog := d.searchLog ++ scanned s n dir k (m + 1) }) := by
  have hcur : (iterAt s n dir k).current = pageAt s n dir k := rfl
  unfold Document.gotoNextPageWithOccurrence Document.scanPages
  rw [hcur, scanLoop_none dir hn hov hs hsn eng 0 m k fuel d hk hnone hfuel]
  simp

theorem toNat_lt_getPages {eng : Engine} {n P : Int}
    (hN : (Document.getPages eng : Int) = n) (h0 : 0 ≤ P) (hP : P < n) :
    P.toNat < Document.getPages eng := by
  omega

theorem gotoPage_of_lt (eng : Engine) (d : Document) (page : Nat)
    (h : page < Document.getPages eng) :
    Document.gotoPage eng d page
      = (true, Document.ensureCurrentPageLoaded eng { d.resetFind with pageNo := page }) := by
  simp [Document.gotoPage, h]

theorem gotoPage_of_ge (eng : Engine) (d : Document) (page : Nat)
    (h : Document.getPages eng ≤ page) :
    Document.gotoPage eng d page = (false, d) := by
  simp [Document.gotoPage, not_lt.2 h]

theorem landOn_pageNo {eng : Engine} {n P : Int} (d : Document) (dir : Direction)
    (log : List Int) (hN : (Document.getPages eng : Int) = n) (h0 : 0 ≤ P) (hP : P < n) :
    ((landOn eng d dir P log).pageNo : Int) = P := by
  have h := toNat_lt_getPages hN h0 hP
  simp only [landOn, gotoPage_of_lt _ _ _ h, Document.ensureCurrentPageLoaded,
    Document.resetFind]
  split <;> simp [h0]

theorem landOn_loaded {eng : Engine} {n P : Int} (d : Document) (dir : Direction)
    (log : List Int)
    (hN : (Document.getPages eng : Int) = n) (h0 : 0 ≤ P) (hP : P < n) :
    (landOn eng d dir P log).currentlyLoadedPageNo = (landOn eng d dir P log).pageNo := by
  have h := toNat_lt_getPages hN h0 hP
  simp only [landOn, gotoPage_of_lt _ _ _ h, Document.ensureCurrentPageLoaded,
    Document.resetFind]
  split
  · rfl
  · rename_i hc
    simpa using hc

theorem landOn_matchesCount (eng : Engine) (P : Int) (d : Document) (dir : Direction)
    (log : List Int) :
    (landOn eng d dir P log).matchesCount
      = ((fz_search_page_number eng P d.matchingFor MATCH_LIMIT).length : Int) := by
  simp [landOn]

theorem landOn_matchIdx (eng : Engine) (P : Int) (d : Document) (dir : Direction)
    (log : List Int) :
    (landOn eng d dir P log).matchIdx
      = if dir = Direction.BACKWARD
        then ((fz_search_page_number eng P d.matchingFor MATCH_LIMIT).length : Int) - 1
        else 0 := by
  simp [landOn]

theorem landOn_matchingFor {eng : Engine} {n P : Int} (d : Document) (dir : Direction)
    (log : List Int)
    (hN : (Document.getPages eng : Int) = n) (h0 : 0 ≤ P) (hP : P < n) :
    (landOn eng d dir P log).matchingFor = d.matchingFor := by
  have h := toNat_lt_getPages hN h0 hP
  simp only [landOn, gotoPage_of_lt _ _ _ h, Document.ensureCurrentPageLoaded,
    Document.resetFind]
  split <;> rfl

theorem landOn_matchList {eng : Engine} {n P : Int} (d : Document) (dir : Direction)
    (log : List Int)
    (hN : (Document.getPages eng : Int) = n) (h0 : 0 ≤ P) (hP : P < n) :
    (landOn eng d dir P log).matchList
      = List.insertionSort matchLe (fz_search_page_number eng P d.matchingFor MATCH_LIMIT) := by
  have h := toNat_lt_getPages hN h0 hP
  simp only [landOn, gotoPage_of_lt _ _ _ h, Document.ensureCurrentPageLoaded,
    Document.resetFind, Document.matchList, stdSort]
  split <;> simp [List.length_insertionSort]

/-! ## What a scan returns, whatever pages the iterator yields -/

theorem next_frame (it it' : PageIterator) (p : Int) (h : it.next = Except.ok (p, it')) :
    it'.dir = it.dir ∧ it'.nPages = it.nPages ∧ it'.start = it.start := by
  by_cases hn : it.nPages = 0
  · simp [PageIterator.next, hn] at h
  · by_cases hc : Int.tmod (wrapInt32 (wrapInt32 (it.nPages + it.current) + it.dir.toInt))
        it.nPages = it.start
    · simp only [PageIterator.next, hn, if_false, hc, ne_eq, not_true_eq_false,
        Except.ok.injEq, Prod.mk.injEq] at h
      obtain ⟨-, rfl⟩ := h
      exact ⟨rfl, rfl, rfl⟩
    · simp only [PageIterator.next, hn, if_false, hc, ne_eq, not_false_eq_true, if_true,
        Except.ok.injEq, Prod.mk.injEq] at h
      obtain ⟨-, rfl⟩ := h
      exact ⟨rfl, rfl, rfl⟩

/-- Whether or not the sum wrapped, the value `next()` returns is below `nPages`, and so
is the page it leaves the iterator on when the iterator was on such a page. -/
theorem next_lt (it it' : PageIterator) (p : Int) (h : it.next = Except.ok (p, it'))
    (hn : 0 ≤ it.nPages) :
    p < it.nPages ∧ (it.current < it.nPages → it'.current < it'.nPages) := by
  by_cases hn0 : it.nPages = 0
  · simp [PageIterator.next, hn0] at h
  · have hpos : 0 < it.nPages := by omega
    have hlt := Int.tmod_lt_of_pos
      (wrapInt32 (wrapInt32 (it.nPages + it.current) + it.dir.toInt)) hpos
    by_cases hc : Int.tmod (wrapInt32 (wrapInt32 (it.nPages + it.current) + it.dir.toInt))
        it.nPages = it.start
    · simp only [PageIterator.next, hn0, if_false, hc, ne_eq, not_true_eq_false,
        Except.ok.injEq, Prod.mk.injEq] at h
      obtain ⟨rfl, rfl⟩ := h
      exact ⟨by omega, fun hcur => hcur⟩
    · simp only [PageIterator.next, hn0, if_false, hc, ne_eq, not_false_eq_true, if_true,
        Except.ok.injEq, Prod.mk.injEq] at h
      obtain ⟨rfl, rfl⟩ := h
      exact ⟨hlt, fun _ => hlt⟩

/-- A scan that returns a positive count stopped on a page of the document that has an
occurrence, with that page's occurrences at the head of `matches`; a scan that returns
0 left `matches` as it was. -/
theorem scanLoop_result (eng : Engine) :
    ∀ (fuel : Nat) (d : Document) (it : PageIterator) (out page : Int) (r : ScanResult),
      Document.scanLoop eng fuel d it out page = Except.ok r →
      0 ≤ it.nPages →
      (page < it.nPages ∨ fz_search_page_number eng page d.matchingFor MATCH_LIMIT = []) →
      r.iter.dir = it.dir
      ∧ ∃ log : List Int,
        (0 < r.cnt →
          0 ≤ r.outPage ∧ r.outPage < it.nPages
          ∧ fz_search_page_number eng r.outPage d.matchingFor MATCH_LIMIT ≠ []
          ∧ r.cnt
            = ((fz_search_page_number eng r.outPage d.matchingFor MATCH_LIMIT).length : Int)
          ∧ r.doc = { d with
              matches_ := fz_search_page_number eng r.outPage d.matchingFor MATCH_LIMIT
                ++ d.matches_.drop
                  (fz_search_page_number eng r.outPage d.matchingFor MATCH_LIMIT).length,
              searchLog := d.searchLog ++ log })
        ∧ (¬ 0 < r.cnt → r.doc = { d with searchLog := d.searchLog ++ log }) := by
  intro fuel
  induction fuel with
  | zero =>
    intro d it out page r h
    simp [Document.scanLoop] at h
  | succ f ih =>
    intro d it out page r h hn hpg
    rw [Document.scanLoop] at h
    by_cases hp : page ≥ 0
    · simp only [hp, if_true] at h
      by_cases hc : ((fz_search_page_number eng page d.matchingFor MATCH_LIMIT).length : Int) > 0
      · simp only [hc, if_true, Except.ok.injEq] at h
        subst h
        have hne : fz_search_page_number eng page d.matchingFor MATCH_LIMIT ≠ [] := by
          intro he
          rw [he] at hc
          simp at hc
        refine ⟨rfl, [page], fun _ => ⟨hp, ?_, hne, rfl, rfl⟩, fun hno => absurd hc hno⟩
        rcases hpg with h1 | h1
        · exact h1
        · exact absurd h1 hne
      · simp only [hc, if_false] at h
        have hnil : fz_search_page_number eng page d.matchingFor MATCH_LIMIT = [] := by
          apply List.eq_nil_of_length_eq_zero
          omega
        cases hnext : it.next with
        | error e => rw [hnext] at h; simp at h
        | ok v =>
          obtain ⟨p, it1⟩ := v
          rw [hnext] at h
          simp only [hnil, List.nil_append, List.length_nil, List.drop_zero] at h
          obtain ⟨hf1, hf2, -⟩ := next_frame it it1 p hnext
          have hplt := (next_lt it it1 p hnext hn).1
          obtain ⟨hdir, log, h1, h2⟩ := ih _ it1 out p r h (by rw [hf2]; exact hn)
            (Or.inl (by rw [hf2]; exact hplt))
          refine ⟨by rw [hdir, hf1], page :: log, fun hpos => ?_, fun hno => ?_⟩
          · obtain ⟨a1, a2, a3, a4, a5⟩ := h1 hpos
            refine ⟨a1, by rw [← hf2]; exact a2, a3, a4, ?_⟩
            rw [a5]
            simp
          · rw [h2 hno]
            simp
    · simp only [hp, if_false, Except.ok.injEq] at h
      subst h
      exact ⟨rfl, [], fun hpos => absurd hpos (by simp), fun _ => by simp⟩

/-- What `gotoNextPageWithOccurrence` returns, for every fuel and every iterator on a
page below its page count: a landing on a page of the document with an occurrence, or
`nullptr` with the find state untouched. -/
theorem gotoNext_result (eng : Engine) (fuel : Nat) (d d' : Document) (it : PageIterator)
    (res : Option Int) (hn : 0 ≤ it.nPages)
    (hpg : it.current < it.nPages
      ∨ fz_search_page_number eng it.current d.matchingFor MATCH_LIMIT = [])
    (h : Document.gotoNextPageWithOccurrence eng fuel d it = Except.ok (res, d')) :
    (∃ (P : Int) (log : List Int), 0 ≤ P ∧ P < it.nPages
        ∧ fz_search_page_number eng P d.matchingFor MATCH_LIMIT ≠ []
        ∧ d' = landOn eng d it.dir P log ∧ res = some d'.matchIdx)
    ∨ (∃ log : List Int, res = none ∧ d' = { d with searchLog := d.searchLog ++ log }) := by
  unfold Document.gotoNextPageWithOccurrence Document.scanPages at h
  cases hs : Document.scanLoop eng fuel d it 0 it.current with
  | error e => rw [hs] at h; simp at h
  | ok r =>
    rw [hs] at h
    obtain ⟨hdir, log, h1, h2⟩ := scanLoop_result eng fuel d it 0 it.current r hs hn hpg
    obtain ⟨cnt, outPage, doc, iter⟩ := r
    dsimp only at h hdir h1 h2
    by_cases hc : cnt > 0
    · obtain ⟨a1, a2, a3, a4, a5⟩ := h1 hc
      simp only [hc, if_true, Except.ok.injEq, Prod.mk.injEq] at h
      obtain ⟨hres, hd⟩ := h
      left
      refine ⟨outPage, log, a1, a2, a3, ?_, ?_⟩
      · rw [← hd, a5, a4, hdir]
        simp [landOn]
      · rw [← hres, ← hd]
    · simp only [hc, if_false, Except.ok.injEq, Prod.mk.injEq] at h
      obtain ⟨hres, hd⟩ := h
      right
      exact ⟨log, hres.symm, by rw [← hd, h2 hc]⟩

/-! ## Offsets of the cyclic walk reach every page -/

theorem pageAt_surj {s n p : Int} (dir : Direction) (hs : 0 ≤ s) (hsn : s < n)
    (hp : 0 ≤ p) (hpn : p < n) :
    ∃ j : Nat, (j : Int) < n ∧ pageAt s n dir j = p ∧ (p ≠ s → 0 < j) := by
  cases dir with
  | FORWARD =>
    by_cases h : s ≤ p
    · refine ⟨(p - s).toNat, by omega, ?_, fun hne => by omega⟩
      have e : ((p - s).toNat : Int) = p - s := Int.toNat_of_nonneg (by omega)
      simp only [pageAt, Direction.toInt, e]
      rw [show s + (p - s) * 1 = p by ring]
      exact Int.emod_eq_of_lt hp hpn
    · refine ⟨(p - s + n).toNat, by omega, ?_, fun _ => by omega⟩
      have e : ((p - s + n).toNat : Int) = p - s + n := Int.toNat_of_nonneg (by omega)
      simp only [pageAt, Direction.toInt, e]
      rw [show s + (p - s + n) * 1 = p + n by ring, Int.add_emod_self]
      exact Int.emod_eq_of_lt hp hpn
  | BACKWARD =>
    by_cases h : p ≤ s
    · refine ⟨(s - p).toNat, by omega, ?_, fun hne => by omega⟩
      have e : ((s - p).toNat : Int) = s - p := Int.toNat_of_nonneg (by omega)
      simp only [pageAt, Direction.toInt, e]
      rw [show s + (s - p) * -1 = p by ring]
      exact Int.emod_eq_of_lt hp hpn
    · refine ⟨(s - p + n).toNat, by omega, ?_, fun _ => by omega⟩
      have e : ((s - p + n).toNat : Int) = s - p + n := Int.toNat_of_nonneg (by omega)
      simp only [pageAt, Direction.toInt, e]
      rw [show s + (s - p + n) * -1 = p - n by ring]
      simp [Int.emod_eq_of_lt hp hpn]

theorem exists_first (Q : Nat → Prop) [DecidablePred Q] (k0 j0 : Nat) (h : k0 ≤ j0)
    (hQ : Q j0) : ∃ j, k0 ≤ j ∧ j ≤ j0 ∧ Q j ∧ ∀ i, k0 ≤ i → i < j → ¬ Q i := by
  have H : ∃ j, k0 ≤ j ∧ Q j := ⟨j0, h, hQ⟩
  refine ⟨Nat.find H, (Nat.find_spec H).1, Nat.find_min' H ⟨h, hQ⟩, (Nat.find_spec H).2, ?_⟩
  intro i hi hlt hQi
  exact Nat.find_min H hlt ⟨hi, hQi⟩

theorem found_eq_nil_iff (eng : Engine) (q : String) (p : Int) :
    fz_search_page_number eng p (some q) MATCH_LIMIT = [] ↔ ¬ hasMatch eng q p := by
  simp [fz_search_page_number, hasMatch, List.take_eq_nil_iff, MATCH_LIMIT]

theorem found_subset (eng : Engine) (needle : Option String) (p : Int) (r : fz_rect)
    (h : r ∈ fz_search_page_number eng p needle MATCH_LIMIT) : r ∈ eng.hits p needle :=
  List.mem_of_mem_take h

theorem getPages_cast (eng : Engine) (h : 1 ≤ Document.getPages eng) :
    (0 : Int) < (Document.getPages eng : Int) := by
  exact_mod_cast h

theorem getPages_bound (eng : Engine) (hB : Document.getPages eng ≤ 1073741824) :
    (Document.getPages eng : Int) ≤ 1073741824 := by
  omega

theorem matchAt_eq_matchList (d : Document) (i : Int) (h0 : 0 ≤ i) (hi : i < d.matchesCount) :
    d.matchAt i = d.matchList[i.toNat]? := by
  have : i.toNat < d.matchesCount.toNat := by omega
  simp [Document.matchAt, Document.matchList, h0, List.getElem?_take, this]

theorem find_unfold (eng : Engine) (fuel : Nat) (d : Document) (q : String) :
    Document.find eng fuel d q
      = Document.gotoNextPageWithOccurrence eng fuel
          { d with matchingFor := some q, matchesCount := 0, matchIdx := 0 }
          (PageIterator.new d.pageNo (Document.getPages eng) Direction.FORWARD) := by
  unfold Document.find Document.resetFind
  split <;> rfl

theorem find_hit (eng : Engine) (fuel : Nat) (d : Document) (q : String) (j : Nat)
    (hB : Document.getPages eng ≤ 1073741824)
    (hp : d.pageNo < Document.getPages eng) (hj : j < Document.getPages eng)
    (hhit : hasMatch eng q (pageAt d.pageNo (Document.getPages eng) Direction.FORWARD j))
    (hfirst : ∀ i, i < j →
      ¬ hasMatch eng q (pageAt d.pageNo (Document.getPages eng) Direction.FORWARD i))
    (hfuel : j + 1 ≤ fuel) :
    Document.find eng fuel d q
      = Except.ok (some 0, landOn eng (findStart d q) Direction.FORWARD
          (pageAt d.pageNo (Document.getPages eng) Direction.FORWARD j)
          (scanned d.pageNo (Document.getPages eng) Direction.FORWARD 0 (j + 1))) := by
  have hn : (0 : Int) < (Document.getPages eng : Int) := by
    exact_mod_cast (by omega : 0 < Document.getPages eng)
  have hs : (0 : Int) ≤ (d.pageNo : Int) := Int.natCast_nonneg _
  have hsn : (d.pageNo : Int) < (Document.getPages eng : Int) := by exact_mod_cast hp
  have hov := getPages_bound eng hB
  rw [find_unfold, new_eq_iterAt _ hs hsn]
  have h := gotoNext_hit Direction.FORWARD hn hov hs hsn eng j 0 fuel (findStart d q)
    (by simpa using hj)
    (fun i _ hi => (found_eq_nil_iff eng q _).2 (hfirst i (by omega)))
    (by
      have := (found_eq_nil_iff eng q
        (pageAt d.pageNo (Document.getPages eng) Direction.FORWARD (0 + j))).not.2
        (by simpa using hhit)
      exact this)
    hfuel
  simp only [Nat.zero_add] at h
  rw [landOn_matchIdx] at h
  simpa [findStart] using h

theorem find_none (eng : Engine) (fuel : Nat) (d : Document) (q : String)
    (hB : Document.getPages eng ≤ 1073741824)
    (hp : d.pageNo < Document.getPages eng)
    (hnone : ∀ i, i < Document.getPages eng →
      ¬ hasMatch eng q (pageAt d.pageNo (Document.getPages eng) Direction.FORWARD i))
    (hfuel : Document.getPages eng + 1 ≤ fuel) :
    Document.find eng fuel d q
      = Except.ok (none, { findStart d q with
          searchLog := d.searchLog ++ scanned d.pageNo (Document.getPages eng)
            Direction.FORWARD 0 (Document.getPages eng) }) := by
  have hn : (0 : Int) < (Document.getPages eng : Int) := by
    exact_mod_cast (by omega : 0 < Document.getPages eng)
  have hs : (0 : Int) ≤ (d.pageNo : Int) := Int.natCast_nonneg _
  have hsn : (d.pageNo : Int) < (Document.getPages eng : Int) := by exact_mod_cast hp
  have hov := getPages_bound eng hB
  obtain ⟨m, hm⟩ : ∃ m, Document.getPages eng = m + 1 := ⟨Document.getPages eng - 1, by omega⟩
  rw [find_unfold, new_eq_iterAt _ hs hsn]
  have h := gotoNext_none Direction.FORWARD hn hov hs hsn eng m 0 fuel (findStart d q)
    (by rw [hm]; simp)
    (fun i _ hi => (found_eq_nil_iff eng q _).2 (hnone i (by omega)))
    (by omega)
  rw [← hm] at h
  simpa [findStart] using h

theorem landOn_matchAt {eng : Engine} {n P : Int} (d : Document) (dir : Direction)
    (log : List Int) (hN : (Document.getPages eng : Int) = n) (h0 : 0 ≤ P) (hP : P < n)
    (i : Int) (hi0 : 0 ≤ i)
    (hi : i < ((fz_search_page_number eng P d.matchingFor MATCH_LIMIT).length : Int)) :
    ∃ r, (landOn eng d dir P log).matchAt i = some r
      ∧ (landOn eng d dir P log).matchList[i.toNat]? = some r
      ∧ r ∈ fz_search_page_number eng P d.matchingFor MATCH_LIMIT := by
  have hc := landOn_matchesCount eng P d dir log
  have hl := landOn_matchList d dir log hN h0 hP
  have hlen : i.toNat < (List.insertionSort matchLe
      (fz_search_page_number eng P d.matchingFor MATCH_LIMIT)).length := by
    rw [List.length_insertionSort]; omega
  refine ⟨(List.insertionSort matchLe
      (fz_search_page_number eng P d.matchingFor MATCH_LIMIT))[i.toNat], ?_, ?_, ?_⟩
  · rw [matchAt_eq_matchList _ _ hi0 (by rw [hc]; exact hi), hl]
    exact List.getElem?_eq_getElem hlen
  · rw [hl]
    exact List.getElem?_eq_getElem hlen
  · exact (List.perm_insertionSort matchLe _).mem_iff.1 (List.getElem_mem hlen)

/-- C1 as stated fails on `engHuge` (2147483647 pages): page 1 has an occurrence of
`"b"`, yet `find "b"` from page 0 returns `nullptr`.  After page 0 the `int` sum
`nPages + current + dir` of `next()` wraps to `-2147483648`, whose remainder is `-1`, and
the scan stops. -/
theorem find_misses_match_when_sum_wraps :
    1 ≤ Document.getPages engHuge ∧ doc0.pageNo < Document.getPages engHuge
      ∧ Document.getPages engHuge + 1 ≤ 2147483648
      ∧ (∃ k : Nat, k < Document.getPages engHuge ∧ hasMatch engHuge "b" k)
      ∧ (PageIterator.new doc0.pageNo (Document.getPages engHuge) Direction.FORWARD).next
          = Except.ok (-1, { start := 0, nPages := 2147483647, dir := Direction.FORWARD,
                             current := -1 })
      ∧ Document.find engHuge 2147483648 doc0 "b" = Except.ok (none, docHb) := by
  refine ⟨by decide, by decide, by decide, ⟨1, by decide, by decide⟩, rfl, rfl⟩

/-- C1 (amended): on a document with at least one page and at most `2^30` pages, and a
current page `p` in range, `find q`
returns a match (the pointer `&matches[0]`), leaves `pageNo` and the loaded page on the
first page of the cyclic forward order `p, p+1, ..., p-1` that has an occurrence and the
cursor on 0, when some page has an occurrence; it returns `nullptr` when no page has. -/
theorem find_lands_on_first_matching_page (eng : Engine) (d : Document) (q : String)
    (fuel : Nat) (hpc : 1 ≤ Document.getPages eng) (hB : Document.getPages eng ≤ 1073741824)
    (hp : d.pageNo < Document.getPages eng)
    (hfuel : Document.getPages eng + 1 ≤ fuel) :
    ((∃ k : Nat, k < Document.getPages eng ∧ hasMatch eng q k) →
      ∃ (j : Nat) (d' : Document) (r : fz_rect),
        j < Document.getPages eng
        ∧ hasMatch eng q (pageAt d.pageNo (Document.getPages eng) Direction.FORWARD j)
        ∧ (∀ i, i < j →
            ¬ hasMatch eng q (pageAt d.pageNo (Document.getPages eng) Direction.FORWARD i))
        ∧ Document.find eng fuel d q = Except.ok (some 0, d')
        ∧ (d'.pageNo : Int) = pageAt d.pageNo (Document.getPages eng) Direction.FORWARD j
        ∧ d'.currentlyLoadedPageNo = d'.pageNo
        ∧ d'.matchIdx = 0
        ∧ d'.matchAt 0 = some r
        ∧ r ∈ eng.hits d'.pageNo (some q))
    ∧ ((∀ k : Nat, k < Document.getPages eng → ¬ hasMatch eng q k) →
      ∃ d', Document.find eng fuel d q = Except.ok (none, d')) := by
  have hn : (0 : Int) < (Document.getPages eng : Int) := getPages_cast eng hpc
  have hs : (0 : Int) ≤ (d.pageNo : Int) := Int.natCast_nonneg _
  have hsn : (d.pageNo : Int) < (Document.getPages eng : Int) := by exact_mod_cast hp
  constructor
  · rintro ⟨k, hk, hkm⟩
    obtain ⟨j0, hj0, hj0e, -⟩ := pageAt_surj Direction.FORWARD hs hsn
      (Int.natCast_nonneg k) (by exact_mod_cast hk : (k : Int) < (Document.getPages eng : Int))
    obtain ⟨j, -, hjle, hjQ, hjmin⟩ := exists_first
      (fun i => hasMatch eng q (pageAt d.pageNo (Document.getPages eng) Direction.FORWARD i))
      0 j0 (Nat.zero_le _) (by simpa [hj0e] using hkm)
    have hj : j < Document.getPages eng := by omega
    have hfirst : ∀ i, i < j →
        ¬ hasMatch eng q (pageAt d.pageNo (Document.getPages eng) Direction.FORWARD i) :=
      fun i hi => hjmin i (Nat.zero_le _) hi
    have hP0 := pageAt_nonneg (d.pageNo : Int) Direction.FORWARD j hn
    have hPn := pageAt_lt (d.pageNo : Int) Direction.FORWARD j hn
    have hfound : fz_search_page_number eng
        (pageAt d.pageNo (Document.getPages eng) Direction.FORWARD j)
        (findStart d q).matchingFor MATCH_LIMIT ≠ [] :=
      (found_eq_nil_iff eng q _).not.2 (not_not.2 hjQ)
    obtain ⟨r, hr1, -, hr3⟩ := landOn_matchAt (findStart d q) Direction.FORWARD
      (scanned d.pageNo (Document.getPages eng) Direction.FORWARD 0 (j + 1)) rfl hP0 hPn 0
      (le_refl _) (by exact_mod_cast List.length_pos.2 hfound)
    have hpage := landOn_pageNo (findStart d q) Direction.FORWARD
      (scanned d.pageNo (Document.getPages eng) Direction.FORWARD 0 (j + 1)) rfl hP0 hPn
    refine ⟨j, _, r, hj, hjQ, hfirst, find_hit eng fuel d q j hB hp hj hjQ hfirst (by omega),
      hpage, landOn_loaded _ _ _ rfl hP0 hPn, ?_, hr1, ?_⟩
    · simp [landOn_matchIdx]
    · rw [hpage]
      exact found_subset eng _ _ r hr3
  · intro hnone
    refine ⟨_, find_none eng fuel d q hB hp (fun i _ => ?_) hfuel⟩
    have h0 := pageAt_nonneg (d.pageNo : Int) Direction.FORWARD i hn
    have h1 := pageAt_lt (d.pageNo : Int) Direction.FORWARD i hn
    have := hnone (pageAt d.pageNo (Document.getPages eng) Direction.FORWARD i).toNat (by omega)
    rwa [Int.toNat_of_nonneg h0] at this

theorem find_lands_on_first_matching_page_witness :
    1 ≤ Document.getPages eng5 ∧ Document.getPages eng5 ≤ 1073741824
      ∧ doc0.pageNo < Document.getPages eng5
      ∧ Document.getPages eng5 + 1 ≤ 6
      ∧ (∃ k : Nat, k < Document.getPages eng5 ∧ hasMatch eng5 "a" k)
      ∧ ∃ (j : Nat) (d' : Document), Document.find eng5 6 doc0 "a" = Except.ok (some 0, d')
          ∧ (d'.pageNo : Int) = pageAt doc0.pageNo (Document.getPages eng5) Direction.FORWARD j
          ∧ d'.currentlyLoadedPageNo = d'.pageNo ∧ d'.matchIdx = 0 := by
  have h := (find_lands_on_first_matching_page eng5 doc0 "a" 6 (by decide) (by decide)
    (by decide) (by decide)).1 ⟨4, by decide, by decide⟩
  obtain ⟨j, d', r, -, -, -, h1, h2, h3, h4, -, -⟩ := h
  exact ⟨by decide, by decide, by decide, by decide, ⟨4, by decide, by decide⟩, j, d', h1, h2, h3, h4⟩

/-! ## `findNext` -/

theorem findNext_move (eng : Engine) (fuel : Nat) (d : Document) (dir : Direction)
    (hq : d.matchingFor ≠ none)
    (hmove : (d.matchIdx < d.matchesCount - 1 ∧ dir = Direction.FORWARD)
      ∨ (d.matchIdx > 0 ∧ dir = Direction.BACKWARD)) :
    Document.findNext eng fuel d dir
      = Except.ok (some (d.matchIdx + dir.toInt), { d with matchIdx := d.matchIdx + dir.toInt }) := by
  simp only [Document.findNext, hq, ne_eq, not_false_eq_true, if_true, hmove]

theorem not_move_of_blocked (d : Document) (dir : Direction) (hb : cursorBlocked d dir) :
    ¬ ((d.matchIdx < d.matchesCount - 1 ∧ dir = Direction.FORWARD)
      ∨ (d.matchIdx > 0 ∧ dir = Direction.BACKWARD)) := by
  cases dir <;> simp [cursorBlocked] at hb ⊢ <;> omega

/-- With two pages or more a blocked `findNext` scans from the page after the current one. -/
theorem findNext_scan (eng : Engine) (fuel : Nat) (d : Document) (dir : Direction)
    (hq : d.matchingFor ≠ none) (hb : cursorBlocked d dir)
    (hB : Document.getPages eng ≤ 1073741824)
    (hp : d.pageNo < Document.getPages eng) (h2 : 2 ≤ Document.getPages eng) :
    Document.findNext eng fuel d dir
      = Document.gotoNextPageWithOccurrence eng fuel d
          (iterAt d.pageNo (Document.getPages eng) dir 1) := by
  have hov := getPages_bound eng hB
  have hn : (0 : Int) < (Document.getPages eng : Int) := by
    exact_mod_cast (by omega : 0 < Document.getPages eng)
  have hs : (0 : Int) ≤ (d.pageNo : Int) := Int.natCast_nonneg _
  have hsn : (d.pageNo : Int) < (Document.getPages eng : Int) := by exact_mod_cast hp
  have hnd : ¬ (Document.getPages eng : Int) ∣ ((0 + 1 : Nat) : Int) :=
    not_dvd_of_lt (by decide) (by exact_mod_cast h2)
  simp only [Document.findNext, hq, ne_eq, not_false_eq_true, if_true,
    not_move_of_blocked d dir hb, if_false, new_eq_iterAt dir hs hsn,
    next_iterAt dir 0 hn hov hs hsn hnd]

theorem findNext_hit (eng : Engine) (fuel : Nat) (d : Document) (q : String)
    (dir : Direction) (m : Nat) (hq : d.matchingFor = some q) (hb : cursorBlocked d dir)
    (hB : Document.getPages eng ≤ 1073741824)
    (hp : d.pageNo < Document.getPages eng) (hm : 1 + m < Document.getPages eng)
    (hhit : hasMatch eng q (pageAt d.pageNo (Document.getPages eng) dir (1 + m)))
    (hfirst : ∀ i, 1 ≤ i → i < 1 + m →
      ¬ hasMatch eng q (pageAt d.pageNo (Document.getPages eng) dir i))
    (hfuel : m + 1 ≤ fuel) :
    Document.findNext eng fuel d dir
      = Except.ok
          (some (landOn eng d dir (pageAt d.pageNo (Document.getPages eng) dir (1 + m))
              (scanned d.pageNo (Document.getPages eng) dir 1 (m + 1))).matchIdx,
            landOn eng d dir (pageAt d.pageNo (Document.getPages eng) dir (1 + m))
              (scanned d.pageNo (Document.getPages eng) dir 1 (m + 1))) := by
  have hov := getPages_bound eng hB
  have hn : (0 : Int) < (Document.getPages eng : Int) := by
    exact_mod_cast (by omega : 0 < Document.getPages eng)
  have hs : (0 : Int) ≤ (d.pageNo : Int) := Int.natCast_nonneg _
  have hsn : (d.pageNo : Int) < (Document.getPages eng : Int) := by exact_mod_cast hp
  rw [findNext_scan eng fuel d dir (by simp [hq]) hb hB hp (by omega)]
  exact gotoNext_hit dir hn hov hs hsn eng m 1 fuel d (by exact_mod_cast hm)
    (fun i h1 hi => by rw [hq]; exact (found_eq_nil_iff eng q _).2 (hfirst i h1 hi))
    (by rw [hq]; exact (found_eq_nil_iff eng q _).not.2 (not_not.2 hhit))
    hfuel

theorem findNext_none (eng : Engine) (fuel : Nat) (d : Document) (q : String)
    (dir : Direction) (hq : d.matchingFor = some q) (hb : cursorBlocked d dir)
    (hB : Document.getPages eng ≤ 1073741824)
    (hp : d.pageNo < Document.getPages eng) (h2 : 2 ≤ Document.getPages eng)
    (hnone : ∀ i, 1 ≤ i → i < Document.getPages eng →
      ¬ hasMatch eng q (pageAt d.pageNo (Document.getPages eng) dir i))
    (hfuel : Document.getPages eng ≤ fuel) :
    Document.findNext eng fuel d dir
      = Except.ok (none, { d with
          searchLog := d.searchLog
            ++ scanned d.pageNo (Document.getPages eng) dir 1 (Document.getPages eng - 1) }) := by
  have hov := getPages_bound eng hB
  have hn : (0 : Int) < (Document.getPages eng : Int) := by
    exact_mod_cast (by omega : 0 < Document.getPages eng)
  have hs : (0 : Int) ≤ (d.pageNo : Int) := Int.natCast_nonneg _
  have hsn : (d.pageNo : Int) < (Document.getPages eng : Int) := by exact_mod_cast hp
  obtain ⟨m, hm⟩ : ∃ m, Document.getPages eng = 1 + m + 1 :=
    ⟨Document.getPages eng - 2, by omega⟩
  rw [findNext_scan eng fuel d dir (by simp [hq]) hb hB hp h2]
  have h := gotoNext_none dir hn hov hs hsn eng m 1 fuel d (by rw [hm])
    (fun i h1 hi => by rw [hq]; exact (found_eq_nil_iff eng q _).2 (hnone i h1 (by omega)))
    (by omega)
  rw [h]
  have e : m + 1 = Document.getPages eng - 1 := by omega
  rw [e]

/-- C2 as stated fails on `engHuge` (2147483647 pages): in the state a `find "b"`
without result leaves on page 0 the cursor cannot move and page 1 has an occurrence, yet
`findNext(FORWARD)` returns `nullptr` and stays on page 0: the `next()` that skips the
current page wraps and leaves the iterator on `-1`. -/
theorem findNext_misses_page_when_sum_wraps :
    docHb.matchingFor = some "b" ∧ cursorBlocked docHb Direction.FORWARD
      ∧ docHb.pageNo < Document.getPages engHuge
      ∧ (∃ k : Nat, k < Document.getPages engHuge ∧ k ≠ docHb.pageNo
          ∧ hasMatch engHuge "b" k)
      ∧ Document.getPages engHuge + 1 ≤ 2147483648
      ∧ Document.findNext engHuge 2147483648 docHb Direction.FORWARD
          = Except.ok (none, docHb) := by
  refine ⟨rfl, by decide, by decide, ⟨1, by decide, by decide, by decide⟩, by decide, rfl⟩

/-- C2 (amended): on a document with at most `2^30` pages, with a query set, the
cursor unable to move on the current page in direction
`dir`, and an occurrence on some page other than the current one, `findNext dir` moves
`pageNo` to the nearest page in direction `dir` (cyclically, at `j ≥ 1` steps from the
current page) that has an occurrence, puts the cursor on 0 going forward and on the last
index going backward, the last index being one less than the number of occurrences the
single-page search reports for the page landed on, and returns the match at the cursor. -/
theorem findNext_lands_on_nearest_page (eng : Engine) (d : Document) (q : String)
    (dir : Direction) (fuel : Nat) (hq : d.matchingFor = some q)
    (hb : cursorBlocked d dir) (hB : Document.getPages eng ≤ 1073741824)
    (hp : d.pageNo < Document.getPages eng)
    (hother : ∃ k : Nat, k < Document.getPages eng ∧ k ≠ d.pageNo ∧ hasMatch eng q k)
    (hfuel : Document.getPages eng + 1 ≤ fuel) :
    ∃ (j : Nat) (d' : Document) (r : fz_rect),
      1 ≤ j ∧ j < Document.getPages eng
      ∧ hasMatch eng q (pageAt d.pageNo (Document.getPages eng) dir j)
      ∧ (∀ i, 1 ≤ i → i < j →
          ¬ hasMatch eng q (pageAt d.pageNo (Document.getPages eng) dir i))
      ∧ Document.findNext eng fuel d dir = Except.ok (some d'.matchIdx, d')
      ∧ (d'.pageNo : Int) = pageAt d.pageNo (Document.getPages eng) dir j
      ∧ (dir = Direction.FORWARD → d'.matchIdx = 0)
      ∧ (dir = Direction.BACKWARD → d'.matchIdx = d'.matchesCount - 1)
      ∧ d'.matchAt d'.matchIdx = some r
      ∧ r ∈ eng.hits d'.pageNo (some q)
      ∧ d'.matchesCount
          = ((fz_search_page_number eng d'.pageNo (some q) MATCH_LIMIT).length : Int) := by
  have hn : (0 : Int) < (Document.getPages eng : Int) := by
    exact_mod_cast (by omega : 0 < Document.getPages eng)
  have hs : (0 : Int) ≤ (d.pageNo : Int) := Int.natCast_nonneg _
  have hsn : (d.pageNo : Int) < (Document.getPages eng : Int) := by exact_mod_cast hp
  obtain ⟨k, hk, hkp, hkm⟩ := hother
  obtain ⟨j0, hj0, hj0e, hj0pos⟩ := pageAt_surj dir hs hsn (Int.natCast_nonneg k)
    (by exact_mod_cast hk : (k : Int) < (Document.getPages eng : Int))
  have hj01 : 1 ≤ j0 := hj0pos (by exact_mod_cast hkp)
  obtain ⟨j, hj1, hjle, hjQ, hjmin⟩ := exists_first
    (fun i => hasMatch eng q (pageAt d.pageNo (Document.getPages eng) dir i))
    1 j0 hj01 (by simpa [hj0e] using hkm)
  obtain ⟨m, rfl⟩ : ∃ m, j = 1 + m := ⟨j - 1, by omega⟩
  have hj : 1 + m < Document.getPages eng := by omega
  have hP0 := pageAt_nonneg (d.pageNo : Int) dir (1 + m) hn
  have hPn := pageAt_lt (d.pageNo : Int) dir (1 + m) hn
  have hfound : fz_search_page_number eng
      (pageAt d.pageNo (Document.getPages eng) dir (1 + m)) d.matchingFor MATCH_LIMIT ≠ [] := by
    rw [hq]; exact (found_eq_nil_iff eng q _).not.2 (not_not.2 hjQ)
  have hlen := List.length_pos.2 hfound
  have hidx := landOn_matchIdx eng (pageAt d.pageNo (Document.getPages eng) dir (1 + m)) d dir
    (scanned d.pageNo (Document.getPages eng) dir 1 (m + 1))
  have hcnt := landOn_matchesCount eng (pageAt d.pageNo (Document.getPages eng) dir (1 + m))
    d dir (scanned d.pageNo (Document.getPages eng) dir 1 (m + 1))
  have hpage := landOn_pageNo d dir
    (scanned d.pageNo (Document.getPages eng) dir 1 (m + 1)) rfl hP0 hPn
  obtain ⟨r, hr1, -, hr3⟩ := landOn_matchAt d dir
    (scanned d.pageNo (Document.getPages eng) dir 1 (m + 1)) rfl hP0 hPn
    (landOn eng d dir (pageAt d.pageNo (Document.getPages eng) dir (1 + m))
      (scanned d.pageNo (Document.getPages eng) dir 1 (m + 1))).matchIdx
    (by rw [hidx]; split <;> omega) (by rw [hidx]; split <;> omega)
  refine ⟨1 + m, _, r, by omega, hj, hjQ, hjmin,
    findNext_hit eng fuel d q dir m hq hb hB hp hj hjQ hjmin (by omega), hpage, ?_, ?_, hr1,
    ?_, ?_⟩
  · intro hd; rw [hidx, hd]; simp
  · intro hd; rw [hidx, hcnt, hd]; simp
  · rw [hpage]
    have := found_subset eng _ _ r hr3
    rwa [hq] at this
  · rw [hcnt, hpage, hq]

theorem findNext_lands_on_nearest_page_witness :
    docP2.matchingFor = some "a" ∧ cursorBlocked docP2 Direction.BACKWARD
      ∧ Document.getPages eng3 ≤ 1073741824
      ∧ docP2.pageNo < Document.getPages eng3
      ∧ (∃ k : Nat, k < Document.getPages eng3 ∧ k ≠ docP2.pageNo ∧ hasMatch eng3 "a" k)
      ∧ Document.getPages eng3 + 1 ≤ 4
      ∧ ∃ d' : Document,
          Document.findNext eng3 4 docP2 Direction.BACKWARD = Except.ok (some d'.matchIdx, d')
          ∧ d'.pageNo = 0 ∧ d'.matchesCount = 2 ∧ d'.matchIdx = 1 := by
  obtain ⟨j, d', r, hj1, hj3, hjm, -, h1, h2, -, h3, -, -, h4⟩ :=
    findNext_lands_on_nearest_page eng3 docP2 "a" Direction.BACKWARD 4 rfl (by decide)
      (by decide) (by decide) ⟨0, by decide, by decide, by decide⟩ (by decide)
  have hj3' : j < 3 := hj3
  have hpn : d'.pageNo = 0 := by
    interval_cases j
    · exact absurd hjm (by decide)
    · have e : pageAt docP2.pageNo (Document.getPages eng3) Direction.BACKWARD 2 = 0 := by
        decide
      rw [e] at h2
      exact_mod_cast h2
  have hc : d'.matchesCount = 2 := by
    rw [h4, hpn]
    decide
  exact ⟨rfl, by decide, by decide, by decide, ⟨0, by decide, by decide, by decide⟩,
    by decide, d', h1, hpn, hc, by rw [h3 rfl, hc]; rfl⟩

/-- C4: with a query set and the cursor on a match of a non-empty match list
(`0 ≤ matchIdx < matchesCount`), when `dir` is forward and the cursor is not on the last
index, or `dir` is backward and the cursor is not on 0, `findNext dir` moves the cursor by
exactly one step in direction `dir`, returns the match at the new cursor, and leaves the
current page, the loaded page, the match list and the query as they were, with no call
of the single-page search and no page load; this for every fuel. -/
theorem findNext_moves_cursor_within_page (eng : Engine) (fuel : Nat) (d : Document)
    (dir : Direction) (hq : d.matchingFor ≠ none) (hlo : 0 ≤ d.matchIdx)
    (hhi : d.matchIdx < d.matchesCount)
    (hdir : (dir = Direction.FORWARD ∧ d.matchIdx ≠ d.matchesCount - 1)
      ∨ (dir = Direction.BACKWARD ∧ d.matchIdx ≠ 0)) :
    ∃ d' : Document,
      Document.findNext eng fuel d dir = Except.ok (some d'.matchIdx, d')
      ∧ d'.matchIdx = d.matchIdx + dir.toInt
      ∧ 0 ≤ d'.matchIdx ∧ d'.matchIdx < d'.matchesCount
      ∧ d'.matchAt d'.matchIdx = d.matchList[(d.matchIdx + dir.toInt).toNat]?
      ∧ d'.pageNo = d.pageNo
      ∧ d'.currentlyLoadedPageNo = d.currentlyLoadedPageNo
      ∧ d'.matches_ = d.matches_ ∧ d'.matchesCount = d.matchesCount
      ∧ d'.matchList = d.matchList
      ∧ d'.matchingFor = d.matchingFor
      ∧ d'.searchLog = d.searchLog ∧ d'.loadLog = d.loadLog
      ∧ d'.page = d.page ∧ d'.bounds = d.bounds := by
  have hmove : (d.matchIdx < d.matchesCount - 1 ∧ dir = Direction.FORWARD)
      ∨ (d.matchIdx > 0 ∧ dir = Direction.BACKWARD) := by
    rcases hdir with ⟨h1, h2⟩ | ⟨h1, h2⟩
    · exact Or.inl ⟨by omega, h1⟩
    · exact Or.inr ⟨by omega, h1⟩
  have hrange : 0 ≤ d.matchIdx + dir.toInt ∧ d.matchIdx + dir.toInt < d.matchesCount := by
    rcases hmove with ⟨h1, h2⟩ | ⟨h1, h2⟩ <;> subst h2 <;> simp [Direction.toInt] <;> omega
  refine ⟨{ d with matchIdx := d.matchIdx + dir.toInt }, findNext_move eng fuel d dir hq hmove,
    rfl, hrange.1, hrange.2, ?_, rfl, rfl, rfl, rfl, rfl, rfl, rfl, rfl, rfl, rfl⟩
  exact matchAt_eq_matchList { d with matchIdx := d.matchIdx + dir.toInt } _ hrange.1 hrange.2

theorem findNext_moves_cursor_within_page_witness :
    docP0.matchingFor ≠ none ∧ 0 ≤ docP0.matchIdx ∧ docP0.matchIdx < docP0.matchesCount
      ∧ ((Direction.FORWARD = Direction.FORWARD ∧ docP0.matchIdx ≠ docP0.matchesCount - 1)
        ∨ (Direction.FORWARD = Direction.BACKWARD ∧ docP0.matchIdx ≠ 0))
      ∧ ∃ d' : Document,
          Document.findNext eng3 0 docP0 Direction.FORWARD = Except.ok (some d'.matchIdx, d')
          ∧ d'.matchIdx = 1 ∧ d'.pageNo = docP0.pageNo ∧ d'.searchLog = docP0.searchLog := by
  obtain ⟨d', h1, h2, -, -, -, h3, -, -, -, -, -, h4, -⟩ :=
    findNext_moves_cursor_within_page eng3 0 docP0 Direction.FORWARD (by decide) (by decide)
      (by decide) (Or.inl ⟨rfl, by decide⟩)
  exact ⟨by decide, by decide, by decide, Or.inl ⟨rfl, by decide⟩, d', h1, h2, h3, h4⟩

/-! ## `gotoPage` -/

/-- C9: for `n ≥ pageCount()`, `gotoPage n` returns false and leaves the whole document
state (current page, loaded page, match list, cursor, query) as it was. -/
theorem gotoPage_out_of_range (eng : Engine) (d : Document) (n : Nat)
    (hn : Document.getPages eng ≤ n) :
    (Document.gotoPage eng d n).1 = false ∧ (Document.gotoPage eng d n).2 = d := by
  rw [gotoPage_of_ge eng d n hn]
  exact ⟨rfl, rfl⟩

/-- C10: for `n < pageCount()`, `gotoPage n` returns true and leaves `pageNo = n`, the
loaded page `n`, the match list empty and the cursor 0; the page is decoded, and the
cached bounds set to the bounds of page `n`, exactly when the loaded page differed from
`n` before the call; otherwise no page is decoded and the bounds stay. -/
theorem gotoPage_in_range (eng : Engine) (d : Document) (n : Nat)
    (hn : n < Document.getPages eng) :
    (Document.gotoPage eng d n).1 = true
    ∧ (Document.gotoPage eng d n).2.pageNo = n
    ∧ (Document.gotoPage eng d n).2.currentlyLoadedPageNo = n
    ∧ (Document.gotoPage eng d n).2.matchesCount = 0
    ∧ (Document.gotoPage eng d n).2.matchList = []
    ∧ (Document.gotoPage eng d n).2.matchIdx = 0
    ∧ (Document.gotoPage eng d n).2.getCurrentMatch = none
    ∧ (d.currentlyLoadedPageNo ≠ n →
        (Document.gotoPage eng d n).2.loadLog = d.loadLog ++ [n]
        ∧ (Document.gotoPage eng d n).2.bounds = eng.fz_bound_page n
        ∧ (Document.gotoPage eng d n).2.page = some n)
    ∧ (d.currentlyLoadedPageNo = n →
        (Document.gotoPage eng d n).2.loadLog = d.loadLog
        ∧ (Document.gotoPage eng d n).2.bounds = d.bounds
        ∧ (Document.gotoPage eng d n).2.page = d.page) := by
  rw [gotoPage_of_lt eng d n hn]
  by_cases h : d.currentlyLoadedPageNo = n
  · simp [Document.ensureCurrentPageLoaded, Document.resetFind, Document.matchList,
      Document.getCurrentMatch, h]
  · simp [Document.ensureCurrentPageLoaded, Document.resetFind, Document.matchList,
      Document.getCurrentMatch, h]

theorem gotoPage_out_of_range_witness :
    Document.getPages eng3 ≤ 3
      ∧ (Document.gotoPage eng3 docP0 3).1 = false ∧ (Document.gotoPage eng3 docP0 3).2 = docP0 :=
  ⟨by decide, gotoPage_out_of_range eng3 docP0 3 (by decide)⟩

theorem gotoPage_in_range_witness :
    2 < Document.getPages eng3
      ∧ (Document.gotoPage eng3 docP0 2).1 = true
      ∧ (Document.gotoPage eng3 docP0 2).2.pageNo = 2
      ∧ (Document.gotoPage eng3 docP0 2).2.currentlyLoadedPageNo = 2
      ∧ (Document.gotoPage eng3 docP0 2).2.matchList = []
      ∧ (Document.gotoPage eng3 docP0 2).2.matchIdx = 0
      ∧ (Document.gotoPage eng3 docP0 2).2.loadLog = docP0.loadLog ++ [2] := by
  obtain ⟨h1, h2, h3, -, h4, h5, -, h6, -⟩ := gotoPage_in_range eng3 docP0 2 (by decide)
  exact ⟨by decide, h1, h2, h3, h4, h5, (h6 (by decide)).1⟩

/-! ## `PageIterator` -/

theorem pageAt_injOn {s n : Int} (dir : Direction) (k k' : Nat) (hkk : k < k')
    (hk : (k' : Int) < (k : Int) + n) : pageAt s n dir k ≠ pageAt s n dir k' := by
  intro h
  unfold pageAt at h
  rw [Int.emod_eq_emod_iff_emod_sub_eq_zero, ← Int.dvd_iff_emod_eq_zero] at h
  have h2 : n ∣ ((k' : Int) - k) := by
    rcases dir_toInt_cases dir with hd | hd <;> rw [hd] at h
    · have e : s + (k : Int) * 1 - (s + (k' : Int) * 1) = -((k' : Int) - k) := by ring
      rw [e] at h
      exact (Int.dvd_neg).1 h
    · have e : s + (k : Int) * -1 - (s + (k' : Int) * -1) = (k' : Int) - k := by ring
      rw [e] at h
      exact h
  have := Int.le_of_dvd (by omega) h2
  omega

theorem nthNext_iterAt {s n : Int} (dir : Direction) (hn : 0 < n)
    (hov : n ≤ 1073741824) (hs : 0 ≤ s) (hsn : s < n) :
    ∀ (k i : Nat), ((i + k + 1 : Nat) : Int) < n →
      (iterAt s n dir i).nthNext k
        = Except.ok (pageAt s n dir (i + k + 1), iterAt s n dir (i + k + 1)) := by
  intro k
  induction k with
  | zero =>
    intro i hi
    exact next_iterAt dir i hn hov hs hsn (not_dvd_of_lt (by omega) hi)
  | succ k ih =>
    intro i hi
    have hnd : ¬ n ∣ ((i + 1 : Nat) : Int) := not_dvd_of_lt (by omega) (by omega)
    rw [PageIterator.nthNext, next_iterAt dir i hn hov hs hsn hnd]
    have e : i + 1 + k + 1 = i + (k + 1) + 1 := by omega
    simpa [e] using ih (i + 1) (by rw [e]; exact hi)

theorem nthNext_iterAt_last {s n : Int} (dir : Direction) (hn : 0 < n)
    (hov : n ≤ 1073741824) (hs : 0 ≤ s)
    (hsn : s < n) :
    ∀ (k i : Nat), ((i + k + 1 : Nat) : Int) = n →
      (iterAt s n dir i).nthNext k = Except.ok (-1, iterAt s n dir (i + k)) := by
  intro k
  induction k with
  | zero =>
    intro i hi
    exact next_iterAt_stop dir i hn hov hs hsn ⟨1, by rw [← hi]; simp⟩
  | succ k ih =>
    intro i hi
    have hnd : ¬ n ∣ ((i + 1 : Nat) : Int) := not_dvd_of_lt (by omega) (by omega)
    rw [PageIterator.nthNext, next_iterAt dir i hn hov hs hsn hnd]
    have e : i + 1 + k + 1 = i + (k + 1) + 1 := by omega
    have e2 : i + 1 + k = i + (k + 1) := by omega
    simpa [e2] using ih (i + 1) (by rw [e]; exact hi)

/-- The first call of `next()` on `PageIterator(2147483646, 2147483647, FORWARD)`
returns `-2`: the `int` sum `nPages + current + dir` wraps around.  The page that C7
names for it is `(start + 1) mod total = 0`. -/
theorem pageIterator_overflow_returns_negative :
    (1 : Int) ≤ 2147483647 ∧ (0 : Int) ≤ 2147483646 ∧ (2147483646 : Int) < 2147483647
      ∧ Except.map Prod.fst
          ((PageIterator.new 2147483646 2147483647 Direction.FORWARD).nthNext (1 - 1))
          = Except.ok (-2)
      ∧ (2147483646 + ((1 : Nat) : Int) * Direction.FORWARD.toInt) % 2147483647 = 0 := by
  refine ⟨by decide, by decide, by decide, ?_, by decide⟩
  rfl

/-- C7 (amended): for `1 ≤ total ≤ 2^30`, `0 ≤ start < total` and either direction
`d`, on a fresh
`PageIterator(start, total, d)` call number `k` of `next()`, `1 ≤ k ≤ total - 1`, returns
`(start + k * d) mod total` (normalised into `[0, total)`), call number `total` returns
`-1`; the `total - 1` pages returned lie in `[0, total)`, differ from `start` and are
pairwise distinct. -/
theorem pageIterator_visits_every_other_page (start total : Int) (dir : Direction)
    (h1 : 1 ≤ total) (hB : total ≤ 1073741824) (h0 : 0 ≤ start) (hlt : start < total) :
    (∀ k : Nat, 1 ≤ k → (k : Int) ≤ total - 1 →
      Except.map Prod.fst ((PageIterator.new start total dir).nthNext (k - 1))
        = Except.ok ((start + (k : Int) * dir.toInt) % total))
    ∧ Except.map Prod.fst ((PageIterator.new start total dir).nthNext (total.toNat - 1))
        = Except.ok (-1)
    ∧ (∀ k : Nat, 1 ≤ k → (k : Int) ≤ total - 1 →
        0 ≤ (start + (k : Int) * dir.toInt) % total
        ∧ (start + (k : Int) * dir.toInt) % total < total
        ∧ (start + (k : Int) * dir.toInt) % total ≠ start)
    ∧ (∀ k k' : Nat, 1 ≤ k → k < k' → (k' : Int) ≤ total - 1 →
        (start + (k : Int) * dir.toInt) % total ≠ (start + (k' : Int) * dir.toInt) % total) := by
  have hn : 0 < total := by omega
  have hov : total ≤ 1073741824 := hB
  refine ⟨?_, ?_, ?_, ?_⟩
  · intro k hk hkt
    obtain ⟨m, rfl⟩ : ∃ m, k = m + 1 := ⟨k - 1, by omega⟩
    rw [new_eq_iterAt dir h0 hlt, Nat.add_sub_cancel,
      nthNext_iterAt dir hn hov h0 hlt m 0 (by rw [Nat.zero_add]; omega)]
    simp [Except.map, pageAt]
  · rw [new_eq_iterAt dir h0 hlt,
      nthNext_iterAt_last dir hn hov h0 hlt (total.toNat - 1) 0 (by omega)]
    rfl
  · intro k hk hkt
    refine ⟨pageAt_nonneg start dir k hn, pageAt_lt start dir k hn, fun h => ?_⟩
    exact not_dvd_of_lt (by omega : 0 < k) (by omega)
      ((pageAt_eq_start_iff dir k h0 hlt).1 h)
  · intro k k' _ hkk hk'
    exact pageAt_injOn dir k k' hkk (by omega)

theorem pageIterator_visits_every_other_page_witness :
    (1 : Int) ≤ 5 ∧ (5 : Int) ≤ 1073741824 ∧ (0 : Int) ≤ 0 ∧ (0 : Int) < 5
      ∧ Except.map Prod.fst ((PageIterator.new 0 5 Direction.BACKWARD).nthNext (1 - 1))
          = Except.ok 4
      ∧ Except.map Prod.fst ((PageIterator.new 0 5 Direction.BACKWARD).nthNext 4)
          = Except.ok (-1) := by
  have h := pageIterator_visits_every_other_page 0 5 Direction.BACKWARD (by decide)
    (by decide) (by decide) (by decide)
  exact ⟨by decide, by decide, by decide, by decide, h.1 1 (by decide) (by decide), h.2.1⟩

/-! ## What `find` and `findNext` return, for every fuel and every page count -/

theorem find_result (eng : Engine) (fuel : Nat) (d d' : Document) (q : String)
    (res : Option Int)
    (hpg : d.pageNo < Document.getPages eng
      ∨ fz_search_page_number eng d.pageNo (some q) MATCH_LIMIT = [])
    (h : Document.find eng fuel d q = Except.ok (res, d')) :
    (∃ (P : Int) (log : List Int), 0 ≤ P ∧ P < (Document.getPages eng : Int)
        ∧ hasMatch eng q P
        ∧ d' = landOn eng (findStart d q) Direction.FORWARD P log ∧ res = some 0)
    ∨ (∃ log : List Int, res = none
        ∧ d' = { findStart d q with searchLog := d.searchLog ++ log }) := by
  rw [find_unfold] at h
  rcases gotoNext_result eng fuel (findStart d q) d'
      (PageIterator.new d.pageNo (Document.getPages eng) Direction.FORWARD) res
      (Int.natCast_nonneg _)
      (by
        rcases hpg with h1 | h1
        · exact Or.inl
            (show (d.pageNo : Int) < (Document.getPages eng : Int) by exact_mod_cast h1)
        · exact Or.inr h1) h with ⟨P, log, h0, h1, h2, h3, h4⟩ | ⟨log, h1, h2⟩
  · left
    refine ⟨P, log, h0, h1, ?_, h3, ?_⟩
    · by_contra hno
      exact h2 ((found_eq_nil_iff eng q P).2 hno)
    · rw [h4, h3, landOn_matchIdx]
      simp [PageIterator.new]
  · right
    exact ⟨log, h1, h2⟩

theorem findNext_blocked_result (eng : Engine) (fuel : Nat) (d d' : Document) (q : String)
    (dir : Direction) (res : Option Int) (hq : d.matchingFor = some q)
    (hmove : ¬ ((d.matchIdx < d.matchesCount - 1 ∧ dir = Direction.FORWARD)
      ∨ (d.matchIdx > 0 ∧ dir = Direction.BACKWARD)))
    (hp : 1 ≤ Document.getPages eng → d.pageNo < Document.getPages eng)
    (h : Document.findNext eng fuel d dir = Except.ok (res, d')) :
    (∃ (P : Int) (log : List Int), 0 ≤ P ∧ P < (Document.getPages eng : Int)
        ∧ hasMatch eng q P
        ∧ d' = landOn eng d dir P log ∧ res = some d'.matchIdx)
    ∨ (∃ log : List Int, res = none ∧ d' = { d with searchLog := d.searchLog ++ log }) := by
  have hq' : d.matchingFor ≠ none := by simp [hq]
  unfold Document.findNext at h
  rw [if_pos hq', if_neg hmove] at h
  dsimp only at h
  cases hnext : (PageIterator.new d.pageNo (Document.getPages eng) dir).next with
  | error e => rw [hnext] at h; simp at h
  | ok v =>
    obtain ⟨p, it1⟩ := v
    rw [hnext] at h
    dsimp only at h
    have hn0 : Document.getPages eng ≠ 0 := by
      intro h0
      simp [PageIterator.next, PageIterator.new, h0] at hnext
    have hpn : d.pageNo < Document.getPages eng := hp (by omega)
    obtain ⟨hf1, hf2, -⟩ := next_frame _ it1 p hnext
    have hcur := (next_lt _ it1 p hnext (Int.natCast_nonneg _)).2
      (show (d.pageNo : Int) < (Document.getPages eng : Int) by exact_mod_cast hpn)
    have hN : it1.nPages = (Document.getPages eng : Int) := hf2
    have hD : it1.dir = dir := hf1
    rcases gotoNext_result eng fuel d d' it1 res (by rw [hN]; exact Int.natCast_nonneg _)
      (Or.inl hcur) h with ⟨P, log, h0, h1, h2, h3, h4⟩ | ⟨log, h1, h2⟩
    · left
      refine ⟨P, log, h0, by rw [← hN]; exact h1, ?_, by rw [h3, hD], h4⟩
      by_contra hno
      rw [hq] at h2
      exact h2 ((found_eq_nil_iff eng q P).2 hno)
    · right
      exact ⟨log, h1, h2⟩

/-! ## The order of the stored matches -/

theorem matchLe_iff (a b : fz_rect) : matchLe a b ↔ readingOrder a b := by
  unfold matchLe matchLess readingOrder
  constructor
  · intro h
    have h1 : a.y0 ≤ b.y0 := not_lt.1 (fun hlt => h (Or.inl hlt))
    exact ⟨h1, fun he => not_lt.1 (fun hlt => h (Or.inr ⟨he.symm, hlt⟩))⟩
  · rintro ⟨h1, h2⟩ (h | ⟨he, hx⟩)
    · exact absurd h (not_lt.2 h1)
    · exact absurd hx (not_lt.2 (h2 he.symm))

theorem readingOrder_refl (a : fz_rect) : readingOrder a a :=
  ⟨le_refl _, fun _ => le_refl _⟩

theorem readingOrder_trans {a b c : fz_rect} (h1 : readingOrder a b)
    (h2 : readingOrder b c) : readingOrder a c := by
  refine ⟨le_trans h1.1 h2.1, fun h => ?_⟩
  have e1 : a.y0 = b.y0 := le_antisymm h1.1 (h ▸ h2.1)
  have e2 : b.y0 = c.y0 := e1 ▸ h
  exact le_trans (h1.2 e1) (h2.2 e2)

theorem readingOrder_total (a b : fz_rect) : readingOrder a b ∨ readingOrder b a := by
  unfold readingOrder
  rcases lt_trichotomy a.y0 b.y0 with h | h | h
  · exact Or.inl ⟨le_of_lt h, fun he => absurd he (ne_of_lt h)⟩
  · rcases le_total a.x0 b.x0 with hx | hx
    · exact Or.inl ⟨le_of_eq h, fun _ => hx⟩
    · exact Or.inr ⟨le_of_eq h.symm, fun _ => hx⟩
  · exact Or.inr ⟨le_of_lt h, fun he => absurd he (ne_of_lt h)⟩

theorem matchLe_isTotal : IsTotal fz_rect matchLe :=
  ⟨fun a b => by rw [matchLe_iff, matchLe_iff]; exact readingOrder_total a b⟩

theorem matchLe_isTrans : IsTrans fz_rect matchLe :=
  ⟨fun a b c h1 h2 => by
    rw [matchLe_iff] at h1 h2 ⊢
    exact readingOrder_trans h1 h2⟩

theorem insertionSort_reading (l : List fz_rect) :
    List.Pairwise readingOrder (List.insertionSort matchLe l) :=
  (@List.sorted_insertionSort _ matchLe _ matchLe_isTotal matchLe_isTrans l).imp
    (fun h => (matchLe_iff _ _).1 h)

theorem pairwise_head_least {l : List fz_rect} {r : fz_rect}
    (hl : List.Pairwise readingOrder l) (hr : l[0]? = some r) :
    ∀ r' ∈ l, readingOrder r r' := by
  cases l with
  | nil => simp at hr
  | cons a t =>
    simp only [List.getElem?_cons_zero, Option.some.injEq] at hr
    subst hr
    intro r' hr'
    rcases List.mem_cons.1 hr' with h | h
    · rw [h]; exact readingOrder_refl _
    · exact (List.pairwise_cons.1 hl).1 r' h

/-- C6: after a successful `find q` the stored matches `matches[0 .. matchesCount)` are
in reading order (every adjacent pair, and every pair), they are a permutation of what
the single-page search returned for the page landed on, and the rectangle `find` returns
is `matches[0]`, which stands before every stored match in that order. -/
theorem find_matches_sorted (eng : Engine) (d d' : Document) (q : String) (fuel : Nat)
    (i : Int) (hp : d.pageNo < Document.getPages eng)
    (hfuel : Document.getPages eng + 1 ≤ fuel)
    (hfind : Document.find eng fuel d q = Except.ok (some i, d')) :
    List.Chain' readingOrder d'.matchList
    ∧ List.Pairwise readingOrder d'.matchList
    ∧ List.Perm d'.matchList (fz_search_page_number eng d'.pageNo (some q) MATCH_LIMIT)
    ∧ i = 0
    ∧ ∃ r, d'.matchAt i = some r ∧ d'.matchList[0]? = some r
        ∧ ∀ r' ∈ d'.matchList, readingOrder r r' := by
  -- a `find` that returned did so within its fuel, whatever the page count
  have _ := hfuel
  rcases find_result eng fuel d d' q (some i) (Or.inl hp) hfind with
    ⟨P, log, hP0, hPn, hhit, hd, hi⟩ | ⟨log, hres, -⟩
  · subst hd
    have hi0 : i = 0 := by simpa using hi
    subst hi0
    have hfound : fz_search_page_number eng P (findStart d q).matchingFor MATCH_LIMIT ≠ [] :=
      (found_eq_nil_iff eng q _).not.2 (not_not.2 hhit)
    have hl := landOn_matchList (findStart d q) Direction.FORWARD log rfl hP0 hPn
    have hpage := landOn_pageNo (findStart d q) Direction.FORWARD log rfl hP0 hPn
    obtain ⟨r, hr1, hr2, -⟩ := landOn_matchAt (findStart d q) Direction.FORWARD log rfl
      hP0 hPn 0 (le_refl _) (by exact_mod_cast List.length_pos.2 hfound)
    have hpw : List.Pairwise readingOrder
        (landOn eng (findStart d q) Direction.FORWARD P log).matchList := by
      rw [hl]; exact insertionSort_reading _
    refine ⟨hpw.chain', hpw, ?_, rfl, r, hr1, hr2, pairwise_head_least hpw hr2⟩
    rw [hl, hpage]
    exact List.perm_insertionSort matchLe _
  · simp at hres

theorem find_matches_sorted_witness :
    doc0.pageNo < Document.getPages eng3 ∧ Document.getPages eng3 + 1 ≤ 4
      ∧ Document.find eng3 4 doc0 "a" = Except.ok (some 0, docP0)
      ∧ List.Chain' readingOrder docP0.matchList
      ∧ List.Perm docP0.matchList (fz_search_page_number eng3 docP0.pageNo (some "a") MATCH_LIMIT)
      ∧ docP0.matchList[0]? = some ⟨72, 100, 80, 112⟩ := by
  obtain ⟨h1, -, h2, -, -⟩ := find_matches_sorted eng3 doc0 docP0 "a" 4 0 (by decide)
    (by decide) rfl
  exact ⟨by decide, by decide, rfl, h1, h2, rfl⟩

/-! ## `findNext` when no other page has an occurrence -/

/-- C3 at a one-page document: `eng1` has a single page with two occurrences of `"a"`.
After `find "a"` and one `findNext(FORWARD)` the cursor stands on the last match and no
other page has an occurrence, yet `findNext(FORWARD)` searches page 0 again and returns
its first match instead of `nullptr`. -/
theorem findNext_single_page_rescans_current :
    Document.getPages eng1 = 1
    ∧ Document.find eng1 2 doc0 "a" = Except.ok (some 0, docP0)
    ∧ Document.findNext eng1 2 docP0 Direction.FORWARD = Except.ok (some 1, docP0last)
    ∧ docP0last.matchingFor = some "a"
    ∧ cursorBlocked docP0last Direction.FORWARD
    ∧ (∀ k : Nat, k < Document.getPages eng1 → k ≠ docP0last.pageNo → ¬ hasMatch eng1 "a" k)
    ∧ Document.findNext eng1 2 docP0last Direction.FORWARD
        = Except.ok (some 0, { docP0 with searchLog := [0, 0] }) := by
  refine ⟨by decide, rfl, rfl, rfl, by decide, ?_, rfl⟩
  intro k hk hne
  have h1 : Document.getPages eng1 = 1 := by decide
  have h2 : docP0last.pageNo = 0 := rfl
  omega

/-! ## Scenario: five pages, one occurrence on page 4 -/

/-- C8 as stated fails on `eng5` (five pages, one occurrence of `"a"`, on page 4):
`find "a"` from page 0 lands on page 4 with the cursor on 0, but the following
`findNext(FORWARD)` searches pages 0 to 3 only and returns `nullptr`, not the match. -/
theorem findNext_single_match_returns_none :
    Document.getPages eng5 = 5
    ∧ eng5.hits 4 (some "a") = [⟨72, 100, 80, 112⟩]
    ∧ (∀ k : Nat, k < 4 → eng5.hits k (some "a") = [])
    ∧ doc0.pageNo = 0
    ∧ Document.find eng5 6 doc0 "a" = Except.ok (some 0, doc5)
    ∧ doc5.pageNo = 4 ∧ doc5.matchIdx = 0
    ∧ Document.findNext eng5 6 doc5 Direction.FORWARD
        = Except.ok (none, { doc5 with searchLog := [0, 1, 2, 3, 4, 0, 1, 2, 3] })
    ∧ ¬ ∃ (i : Int) (d' : Document),
        Document.findNext eng5 6 doc5 Direction.FORWARD = Except.ok (some i, d') := by
  have hres : Document.findNext eng5 6 doc5 Direction.FORWARD
      = Except.ok (none, { doc5 with searchLog := [0, 1, 2, 3, 4, 0, 1, 2, 3] }) := rfl
  refine ⟨by decide, by decide, by decide, rfl, rfl, rfl, rfl, hres, ?_⟩
  rintro ⟨i, d', h⟩
  rw [hres] at h
  simp at h

/-- C8, amended: on every five-page document whose only occurrence of `q` is one match
`r` on page 4, starting on page 0, `find q` returns that match with `pageNo = 4` and the
cursor on 0; a following `findNext(FORWARD)` returns `nullptr` and leaves `pageNo = 4`,
the cursor on 0 and the match list `[r]`, so that match stays the current one. -/
theorem find_then_findNext_single_match (eng : Engine) (d : Document) (q : String)
    (r : fz_rect) (fuel : Nat) (h5 : Document.getPages eng = 5)
    (h4 : eng.hits 4 (some q) = [r])
    (hnone : ∀ k : Nat, k < 4 → eng.hits k (some q) = [])
    (hp0 : d.pageNo = 0) (hfuel : 6 ≤ fuel) :
    ∃ d1 d2 : Document,
      Document.find eng fuel d q = Except.ok (some 0, d1)
      ∧ d1.pageNo = 4 ∧ d1.currentlyLoadedPageNo = 4 ∧ d1.matchIdx = 0
      ∧ d1.matchAt 0 = some r ∧ d1.matchList = [r]
      ∧ Document.findNext eng fuel d1 Direction.FORWARD = Except.ok (none, d2)
      ∧ d2.pageNo = 4 ∧ d2.matchIdx = 0 ∧ d2.matchList = [r]
      ∧ d2.getCurrentMatch = some 0 ∧ d2.matchAt 0 = some r := by
  have hn : (0 : Int) < (Document.getPages eng : Int) := by rw [h5]; decide
  have hp : d.pageNo < Document.getPages eng := by omega
  have e0 : ∀ i : Nat, i < 5 →
      pageAt d.pageNo (Document.getPages eng) Direction.FORWARD i = (i : Int) := by
    intro i hi
    rw [hp0, h5]
    simp only [pageAt, Direction.toInt]
    omega
  have hm4 : hasMatch eng q 4 := by simp [hasMatch, h4]
  have hnm : ∀ i : Nat, i < 4 → ¬ hasMatch eng q (i : Int) := by
    intro i hi
    simp [hasMatch, hnone i hi]
  have hfound4 : fz_search_page_number eng 4 (some q) MATCH_LIMIT = [r] := by
    simp [fz_search_page_number, h4, MATCH_LIMIT]
  have hP : pageAt d.pageNo (Document.getPages eng) Direction.FORWARD 4 = 4 := e0 4 (by decide)
  have hfind := find_hit eng fuel d q 4 (by omega) hp (by omega) (by rw [hP]; exact hm4)
    (fun i hi => by rw [e0 i (by omega)]; exact hnm i hi) (by omega)
  rw [hP] at hfind
  have hd1page := landOn_pageNo (n := (Document.getPages eng : Int)) (findStart d q)
    Direction.FORWARD
    (scanned d.pageNo (Document.getPages eng) Direction.FORWARD 0 (4 + 1)) rfl
    (by decide : (0 : Int) ≤ 4) (by rw [h5]; decide)
  have hd1loaded := landOn_loaded (n := (Document.getPages eng : Int)) (findStart d q)
    Direction.FORWARD
    (scanned d.pageNo (Document.getPages eng) Direction.FORWARD 0 (4 + 1)) rfl
    (by decide : (0 : Int) ≤ 4) (by rw [h5]; decide)
  have hd1list := landOn_matchList (n := (Document.getPages eng : Int)) (findStart d q)
    Direction.FORWARD
    (scanned d.pageNo (Document.getPages eng) Direction.FORWARD 0 (4 + 1)) rfl
    (by decide : (0 : Int) ≤ 4) (by rw [h5]; decide)
  have hd1q := landOn_matchingFor (n := (Document.getPages eng : Int)) (findStart d q)
    Direction.FORWARD
    (scanned d.pageNo (Document.getPages eng) Direction.FORWARD 0 (4 + 1)) rfl
    (by decide : (0 : Int) ≤ 4) (by rw [h5]; decide)
  have hd1cnt := landOn_matchesCount eng 4 (findStart d q) Direction.FORWARD
    (scanned d.pageNo (Document.getPages eng) Direction.FORWARD 0 (4 + 1))
  have hd1idx := landOn_matchIdx eng 4 (findStart d q) Direction.FORWARD
    (scanned d.pageNo (Document.getPages eng) Direction.FORWARD 0 (4 + 1))
  have hfs : (findStart d q).matchingFor = some q := rfl
  rw [hfs, hfound4] at hd1list hd1cnt
  simp only [List.insertionSort, List.orderedInsert, List.length_singleton,
    Nat.cast_one] at hd1list hd1cnt
  simp only [reduceCtorEq, if_false] at hd1idx
  generalize landOn eng (findStart d q) Direction.FORWARD 4
    (scanned d.pageNo (Document.getPages eng) Direction.FORWARD 0 (4 + 1)) = d1
    at hfind hd1page hd1loaded hd1list hd1q hd1cnt hd1idx
  have hd1p : d1.pageNo = 4 := by exact_mod_cast hd1page
  have hd1at : d1.matchAt 0 = some r := by
    rw [matchAt_eq_matchList d1 0 (le_refl _) (by rw [hd1cnt]; decide), hd1list]
    rfl
  have e4 : ∀ i : Nat, 1 ≤ i → i < 5 →
      pageAt d1.pageNo (Document.getPages eng) Direction.FORWARD i = ((i - 1 : Nat) : Int) := by
    intro i hi1 hi
    rw [hd1p, h5]
    simp only [pageAt, Direction.toInt]
    omega
  have hnext := findNext_none eng fuel d1 q Direction.FORWARD (by rw [hd1q]; rfl)
    (by simp [cursorBlocked, hd1cnt, hd1idx]) (by omega) (by omega) (by omega)
    (fun i hi1 hi => by
      rw [e4 i hi1 (by omega)]
      exact hnm (i - 1) (by omega))
    (by omega)
  refine ⟨d1, _, hfind, hd1p, by rw [hd1loaded, hd1p], hd1idx, hd1at, hd1list, hnext,
    hd1p, hd1idx, hd1list, ?_, hd1at⟩
  simp [Document.getCurrentMatch, hd1cnt, hd1idx]

theorem find_then_findNext_single_match_witness :
    Document.getPages eng5 = 5
    ∧ eng5.hits 4 (some "a") = [⟨72, 100, 80, 112⟩]
    ∧ (∀ k : Nat, k < 4 → eng5.hits k (some "a") = [])
    ∧ doc0.pageNo = 0 ∧ 6 ≤ 6
    ∧ ∃ d1 d2 : Document,
        Document.find eng5 6 doc0 "a" = Except.ok (some 0, d1)
        ∧ d1.pageNo = 4 ∧ d1.matchIdx = 0
        ∧ Document.findNext eng5 6 d1 Direction.FORWARD = Except.ok (none, d2)
        ∧ d2.pageNo = 4 ∧ d2.matchIdx = 0 := by
  obtain ⟨d1, d2, h1, h2, -, h3, -, -, h4, h5, h6, -⟩ :=
    find_then_findNext_single_match eng5 doc0 "a" ⟨72, 100, 80, 112⟩ 6 (by decide)
      (by decide) (by decide) rfl (by decide)
  exact ⟨by decide, by decide, by decide, rfl, by decide, d1, d2, h1, h2, h3, h4, h5, h6⟩

/-! ## Round trip of `findNext` -/

theorem landOn_onMatch {eng : Engine} {P : Int} (d : Document) (q : String)
    (dir : Direction) (log : List Int) (hq : d.matchingFor = some q) (h0 : 0 ≤ P)
    (hP : P < (Document.getPages eng : Int)) (hhit : hasMatch eng q P) :
    Document.onMatch eng q (landOn eng d dir P log) := by
  have hpage := landOn_pageNo d dir log rfl h0 hP
  have hfound : fz_search_page_number eng P (some q) MATCH_LIMIT ≠ [] :=
    (found_eq_nil_iff eng q _).not.2 (not_not.2 hhit)
  have hlen := List.length_pos.2 hfound
  have hcnt := landOn_matchesCount eng P d dir log
  have hidx := landOn_matchIdx eng P d dir log
  have hl := landOn_matchList d dir log rfl h0 hP
  rw [hq] at hcnt hidx hl
  refine ⟨by omega, ?_, ?_, ?_, ?_, ?_⟩
  · rw [landOn_matchingFor d dir log rfl h0 hP, hq]
  · rw [hpage]; exact hcnt
  · rw [hpage]; exact hl
  · rw [hidx]; split <;> omega
  · rw [hidx, hcnt]; split <;> omega

/-- C11: with page indices 32-bit unsigned (`getPages() < 2 ^ 32`) and the current page
a page of the document, `prev()` on page 0, where `pageNo - 1` wraps to `2 ^ 32 - 1`, and
`next()` on the last page return false and leave the state as it was; on every other page
they return true and move `pageNo` by exactly one. -/
theorem next_prev_never_wrap (eng : Engine) (d : Document)
    (hN : Document.getPages eng < 4294967296) (hp : d.pageNo < Document.getPages eng) :
    (d.pageNo = 0 →
      (d.pageNo + 4294967296 - 1) % 4294967296 = 4294967295
      ∧ Document.prev eng d = (false, d))
    ∧ (d.pageNo + 1 = Document.getPages eng → Document.next eng d = (false, d))
    ∧ (d.pageNo ≠ 0 →
      (Document.prev eng d).1 = true ∧ (Document.prev eng d).2.pageNo + 1 = d.pageNo)
    ∧ (d.pageNo + 1 ≠ Document.getPages eng →
      (Document.next eng d).1 = true ∧ (Document.next eng d).2.pageNo = d.pageNo + 1) := by
  refine ⟨?_, ?_, ?_, ?_⟩
  · intro h0
    have e : (d.pageNo + 4294967296 - 1) % 4294967296 = 4294967295 := by omega
    refine ⟨e, ?_⟩
    unfold Document.prev
    rw [e]
    exact gotoPage_of_ge eng d _ (by omega)
  · intro hlast
    have e : (d.pageNo + 1) % 4294967296 = d.pageNo + 1 := by omega
    unfold Document.next
    rw [e]
    exact gotoPage_of_ge eng d _ (by omega)
  · intro h0
    have e : (d.pageNo + 4294967296 - 1) % 4294967296 = d.pageNo - 1 := by omega
    unfold Document.prev
    rw [e, gotoPage_of_lt eng d _ (by omega)]
    refine ⟨rfl, ?_⟩
    have hpn : (Document.ensureCurrentPageLoaded eng
        { d.resetFind with pageNo := d.pageNo - 1 }).pageNo = d.pageNo - 1 := by
      unfold Document.ensureCurrentPageLoaded
      split <;> rfl
    simp only [hpn]
    omega
  · intro hlast
    have e : (d.pageNo + 1) % 4294967296 = d.pageNo + 1 := by omega
    unfold Document.next
    rw [e, gotoPage_of_lt eng d _ (by omega)]
    refine ⟨rfl, ?_⟩
    unfold Document.ensureCurrentPageLoaded
    split <;> rfl

theorem next_prev_never_wrap_witness :
    Document.getPages eng3 < 4294967296 ∧ docP0.pageNo < Document.getPages eng3
      ∧ Document.prev eng3 docP0 = (false, docP0)
      ∧ (Document.next eng3 docP0).1 = true
      ∧ (Document.next eng3 docP0).2.pageNo = docP0.pageNo + 1 := by
  have h := next_prev_never_wrap eng3 docP0 (by decide) (by decide)
  exact ⟨by decide, by decide, (h.1 rfl).2, (h.2.2.2 (by decide)).1, (h.2.2.2 (by decide)).2⟩

/-! ## The clamp `Viewer::fixBounds` -/

theorem floatToInt_of_nonneg {q : ℚ} (h : 0 ≤ q) : floatToInt q = ⌊q⌋ := by
  simp [floatToInt, h]

theorem floatToInt_intCast (n : Int) : floatToInt (n : ℚ) = n := by
  unfold floatToInt
  split <;> simp

theorem floatToInt_le_of_le {q : ℚ} {w : Int} (hw : 0 ≤ w) (h : q ≤ (w : ℚ)) :
    floatToInt q ≤ w := by
  unfold floatToInt
  split
  · exact Int.cast_le.1 (le_trans (Int.floor_le q) h)
  · rename_i hq
    have : ⌈q⌉ ≤ 0 := Int.ceil_le.2 (by exact_mod_cast le_of_lt (not_le.1 hq))
    omega

theorem fixBounds_eq (v : Viewer) :
    v.fixBounds = { v with xPos := clampAxis v.xPos v.width v.boundsWidth,
                           yPos := clampAxis v.yPos v.height v.boundsHeight } := by
  unfold Viewer.fixBounds clampAxis Viewer.boundsWidth Viewer.boundsHeight
  by_cases hx : v.xPos < 0 ∨ floatToInt (v.bounds.x1 - v.bounds.x0) ≤ v.width <;>
    by_cases hy : v.yPos < 0 ∨ floatToInt (v.bounds.y1 - v.bounds.y0) ≤ v.height <;>
    simp [hx, hy]

theorem clampAxis_range (pos size content : Int) :
    0 ≤ clampAxis pos size content ∧ clampAxis pos size content ≤ max 0 (content - size) := by
  unfold clampAxis
  split <;> omega

theorem clampAxis_fit (pos size content : Int) (h : content ≤ size) :
    clampAxis pos size content = 0 := by
  simp [clampAxis, h]

theorem clampAxis_of_range (pos size content : Int) (h0 : 0 ≤ pos)
    (h1 : pos ≤ max 0 (content - size)) : clampAxis pos size content = pos := by
  unfold clampAxis
  split <;> omega

theorem clampAxis_idem (pos size content : Int) :
    clampAxis (clampAxis pos size content) size content = clampAxis pos size content :=
  clampAxis_of_range _ _ _ (clampAxis_range pos size content).1
    (clampAxis_range pos size content).2

/-- C12: for every prior pan, every positive display size and every transformed content
size, after `fixBounds` the pan lies in `[0, max(0, boundsWidth - width)]` and
`[0, max(0, boundsHeight - height)]`; on an axis on which the content is not larger than
the display the pan is 0, whatever it was before. -/
theorem fixBounds_clamps (v : Viewer) (hw : 0 < v.width) (hh : 0 < v.height) :
    0 ≤ v.fixBounds.xPos
    ∧ v.fixBounds.xPos ≤ max 0 (floatToInt (v.bounds.x1 - v.bounds.x0) - v.width)
    ∧ 0 ≤ v.fixBounds.yPos
    ∧ v.fixBounds.yPos ≤ max 0 (floatToInt (v.bounds.y1 - v.bounds.y0) - v.height)
    ∧ (v.bounds.x1 - v.bounds.x0 ≤ (v.width : ℚ) → v.fixBounds.xPos = 0)
    ∧ (v.bounds.y1 - v.bounds.y0 ≤ (v.height : ℚ) → v.fixBounds.yPos = 0)
    ∧ v.fixBounds.bounds = v.bounds ∧ v.fixBounds.width = v.width
    ∧ v.fixBounds.height = v.height := by
  rw [fixBounds_eq]
  refine ⟨(clampAxis_range _ _ _).1, (clampAxis_range _ _ _).2, (clampAxis_range _ _ _).1,
    (clampAxis_range _ _ _).2, ?_, ?_, rfl, rfl, rfl⟩
  · intro h
    exact clampAxis_fit _ _ _ (floatToInt_le_of_le (le_of_lt hw) h)
  · intro h
    exact clampAxis_fit _ _ _ (floatToInt_le_of_le (le_of_lt hh) h)

theorem fixBounds_clamps_witness :
    0 < viewB.width ∧ 0 < viewB.height
      ∧ 0 ≤ viewB.fixBounds.xPos
      ∧ viewB.fixBounds.xPos ≤ max 0 (floatToInt (viewB.bounds.x1 - viewB.bounds.x0) - viewB.width)
      ∧ 0 ≤ viewB.fixBounds.yPos
      ∧ viewB.fixBounds.xPos = 180 ∧ viewB.fixBounds.yPos = 0 := by
  obtain ⟨h1, h2, h3, -⟩ := fixBounds_clamps viewB (by decide) (by decide)
  refine ⟨by decide, by decide, h1, h2, h3, ?_, ?_⟩
  · norm_num [viewB, viewA, Viewer.fixBounds, floatToInt]
  · norm_num [viewB, viewA, Viewer.fixBounds, floatToInt]

/-- C17: `fixBounds` is idempotent: applied twice it leaves the viewer, and so the pan,
as applied once, for every pan, display size and content size. -/
theorem fixBounds_idempotent (v : Viewer) : v.fixBounds.fixBounds = v.fixBounds := by
  rw [fixBounds_eq v.fixBounds, fixBounds_eq v]
  simp only [Viewer.boundsWidth, Viewer.boundsHeight, clampAxis_idem]

/-! ## Scrolling -/

theorem floatToInt_pos_imp {q : ℚ} (h : 0 < floatToInt q) : 0 ≤ q := by
  by_contra hq
  have : floatToInt q = ⌈q⌉ := by simp [floatToInt, hq]
  have h2 : ⌈q⌉ ≤ 0 := Int.ceil_le.2 (by exact_mod_cast le_of_lt (not_le.1 hq))
  omega

theorem scrollForward_axis (y h : Int) (H : ℚ) (hy0 : 0 ≤ y)
    (hy1 : y ≤ max 0 (floatToInt H - h)) (hh : 0 < h) :
    (if (y : ℚ) < H - (h : ℚ) then
        floatToInt (if ((y + scroll : Int) : ℚ) > H - (h : ℚ) then H - (h : ℚ)
          else ((y + scroll : Int) : ℚ))
      else y)
      = clampAxis (y + scroll) h (floatToInt H) := by
  have hfl := Int.floor_le H
  have hfl2 := Int.lt_floor_add_one H
  have hsub : ⌊H - (h : ℚ)⌋ = ⌊H⌋ - h := Int.floor_sub_int H h
  by_cases hA : (y : ℚ) < H - (h : ℚ)
  · have hHpos : 0 ≤ H - (h : ℚ) := by
      have : (0 : ℚ) ≤ (y : ℚ) := by exact_mod_cast hy0
      linarith
    have hH0 : 0 ≤ H := by
      have : (0 : ℚ) < (h : ℚ) := by exact_mod_cast hh
      linarith
    have hbH : floatToInt H = ⌊H⌋ := floatToInt_of_nonneg hH0
    have hge : 0 ≤ ⌊H⌋ - h := by rw [← hsub]; exact Int.floor_nonneg.2 hHpos
    rw [if_pos hA, hbH]
    by_cases hB : ((y + scroll : Int) : ℚ) > H - (h : ℚ)
    · rw [if_pos hB, floatToInt_of_nonneg hHpos, hsub]
      have hlt : ⌊H⌋ - h < y + scroll := by
        rw [← hsub]; exact Int.floor_lt.2 hB
      unfold clampAxis scroll at *
      split <;> omega
    · rw [if_neg hB, floatToInt_intCast]
      have hle : y + scroll ≤ ⌊H⌋ - h := by
        rw [← hsub]; exact Int.le_floor.2 (not_lt.1 hB)
      unfold clampAxis scroll at *
      split <;> omega
  · rw [if_neg hA]
    have hA' : H - (h : ℚ) ≤ (y : ℚ) := not_lt.1 hA
    unfold clampAxis scroll
    by_cases hfit : floatToInt H ≤ h
    · have : y = 0 := by omega
      simp [hfit, this]
    · have hpos : 0 < floatToInt H := by omega
      have hbH : floatToInt H = ⌊H⌋ := floatToInt_of_nonneg (floatToInt_pos_imp hpos)
      rw [hbH] at hfit hy1 ⊢
      have h1 : ((⌊H⌋ - h : Int) : ℚ) ≤ (y : ℚ) := by
        push_cast
        linarith
      have h2 : ⌊H⌋ - h ≤ y := by exact_mod_cast h1
      split <;> omega

theorem scrollBackward_axis (y h content : Int) (hy0 : 0 ≤ y)
    (hy1 : y ≤ max 0 (content - h)) :
    (if y > 0 then (if y - scroll < 0 then 0 else y - scroll) else y)
      = clampAxis (y - scroll) h content := by
  unfold clampAxis scroll
  split <;> split <;> omega

theorem scrollUp_eq (v : Viewer) (hy0 : 0 ≤ v.yPos)
    (hy1 : v.yPos ≤ max 0 (v.boundsHeight - v.height)) :
    v.scrollUp = { v with yPos := clampAxis (v.yPos - scroll) v.height v.boundsHeight } := by
  have h := scrollBackward_axis v.yPos v.height v.boundsHeight hy0 hy1
  unfold Viewer.scrollUp
  by_cases hA : v.yPos > 0
  · rw [if_pos hA] at h ⊢
    simp only [← h]
  · rw [if_neg hA] at h ⊢
    rw [← h]

theorem scrollLeft_eq (v : Viewer) (hx0 : 0 ≤ v.xPos)
    (hx1 : v.xPos ≤ max 0 (v.boundsWidth - v.width)) :
    v.scrollLeft = { v with xPos := clampAxis (v.xPos - scroll) v.width v.boundsWidth } := by
  have h := scrollBackward_axis v.xPos v.width v.boundsWidth hx0 hx1
  unfold Viewer.scrollLeft
  by_cases hA : v.xPos > 0
  · rw [if_pos hA] at h ⊢
    simp only [← h]
  · rw [if_neg hA] at h ⊢
    rw [← h]

theorem scrollDown_eq (v : Viewer) (hh : 0 < v.height) (hy0 : 0 ≤ v.yPos)
    (hy1 : v.yPos ≤ max 0 (v.boundsHeight - v.height)) :
    v.scrollDown = { v with yPos := clampAxis (v.yPos + scroll) v.height v.boundsHeight } := by
  have h := scrollForward_axis v.yPos v.height (v.bounds.y1 - v.bounds.y0) hy0 hy1 hh
  unfold Viewer.scrollDown
  by_cases hA : (v.yPos : ℚ) < (v.bounds.y1 - v.bounds.y0) - (v.height : ℚ)
  · rw [if_pos hA] at h ⊢
    simp only [Viewer.boundsHeight, ← h]
  · rw [if_neg hA] at h ⊢
    simp only [Viewer.boundsHeight, ← h]

theorem scrollRight_eq (v : Viewer) (hw : 0 < v.width) (hx0 : 0 ≤ v.xPos)
    (hx1 : v.xPos ≤ max 0 (v.boundsWidth - v.width)) :
    v.scrollRight = { v with xPos := clampAxis (v.xPos + scroll) v.width v.boundsWidth } := by
  have h := scrollForward_axis v.xPos v.width (v.bounds.x1 - v.bounds.x0) hx0 hx1 hw
  unfold Viewer.scrollRight
  by_cases hA : (v.xPos : ℚ) < (v.bounds.x1 - v.bounds.x0) - (v.width : ℚ)
  · rw [if_pos hA] at h ⊢
    simp only [Viewer.boundsWidth, ← h]
  · rw [if_neg hA] at h ⊢
    simp only [Viewer.boundsWidth, ← h]

/-- C16: with the pan within the clamped range, each of `scrollUp`, `scrollDown`,
`scrollLeft` and `scrollRight` leaves the viewer exactly as moving the pan on its axis by
the step 20 in its direction and then applying `fixBounds`; the pan on the other axis is
unchanged, and at the bound of its direction the call changes nothing. -/
theorem scroll_is_step_then_clamp (v : Viewer) (hw : 0 < v.width) (hh : 0 < v.height)
    (hx0 : 0 ≤ v.xPos) (hx1 : v.xPos ≤ max 0 (v.boundsWidth - v.width))
    (hy0 : 0 ≤ v.yPos) (hy1 : v.yPos ≤ max 0 (v.boundsHeight - v.height)) :
    v.scrollUp = Viewer.fixBounds { v with yPos := v.yPos - scroll }
    ∧ v.scrollDown = Viewer.fixBounds { v with yPos := v.yPos + scroll }
    ∧ v.scrollLeft = Viewer.fixBounds { v with xPos := v.xPos - scroll }
    ∧ v.scrollRight = Viewer.fixBounds { v with xPos := v.xPos + scroll }
    ∧ v.scrollUp.xPos = v.xPos ∧ v.scrollDown.xPos = v.xPos
    ∧ v.scrollLeft.yPos = v.yPos ∧ v.scrollRight.yPos = v.yPos
    ∧ (v.yPos = 0 → v.scrollUp = v)
    ∧ (v.yPos = max 0 (v.boundsHeight - v.height) → v.scrollDown = v)
    ∧ (v.xPos = 0 → v.scrollLeft = v)
    ∧ (v.xPos = max 0 (v.boundsWidth - v.width) → v.scrollRight = v) := by
  have hxc := clampAxis_of_range v.xPos v.width v.boundsWidth hx0 hx1
  have hyc := clampAxis_of_range v.yPos v.height v.boundsHeight hy0 hy1
  have hU := scrollUp_eq v hy0 hy1
  have hD := scrollDown_eq v hh hy0 hy1
  have hL := scrollLeft_eq v hx0 hx1
  have hR := scrollRight_eq v hw hx0 hx1
  simp only [Viewer.boundsWidth, Viewer.boundsHeight] at hxc hyc hU hD hL hR hx1 hy1 ⊢
  refine ⟨?_, ?_, ?_, ?_, ?_, ?_, ?_, ?_, ?_, ?_, ?_, ?_⟩
  · rw [hU, fixBounds_eq]
    simp only [Viewer.boundsWidth, Viewer.boundsHeight, hxc]
  · rw [hD, fixBounds_eq]
    simp only [Viewer.boundsWidth, Viewer.boundsHeight, hxc]
  · rw [hL, fixBounds_eq]
    simp only [Viewer.boundsWidth, Viewer.boundsHeight, hyc]
  · rw [hR, fixBounds_eq]
    simp only [Viewer.boundsWidth, Viewer.boundsHeight, hyc]
  · rw [hU]
  · rw [hD]
  · rw [hL]
  · rw [hR]
  · intro h0
    rw [hU]
    have : clampAxis (v.yPos - scroll) v.height (floatToInt (v.bounds.y1 - v.bounds.y0))
        = v.yPos := by
      unfold clampAxis scroll; split <;> omega
    rw [this]
  · intro h0
    rw [hD]
    have : clampAxis (v.yPos + scroll) v.height (floatToInt (v.bounds.y1 - v.bounds.y0))
        = v.yPos := by
      unfold clampAxis scroll; split <;> omega
    rw [this]
  · intro h0
    rw [hL]
    have : clampAxis (v.xPos - scroll) v.width (floatToInt (v.bounds.x1 - v.bounds.x0))
        = v.xPos := by
      unfold clampAxis scroll; split <;> omega
    rw [this]
  · intro h0
    rw [hR]
    have : clampAxis (v.xPos + scroll) v.width (floatToInt (v.bounds.x1 - v.bounds.x0))
        = v.xPos := by
      unfold clampAxis scroll; split <;> omega
    rw [this]

theorem scroll_is_step_then_clamp_witness :
    0 < viewA.width ∧ 0 < viewA.height
      ∧ 0 ≤ viewA.xPos ∧ viewA.xPos ≤ max 0 (viewA.boundsWidth - viewA.width)
      ∧ 0 ≤ viewA.yPos ∧ viewA.yPos ≤ max 0 (viewA.boundsHeight - viewA.height)
      ∧ viewA.scrollDown = Viewer.fixBounds { viewA with yPos := viewA.yPos + scroll }
      ∧ viewA.scrollDown.yPos = 760 ∧ viewA.scrollDown.xPos = viewA.xPos := by
  have hx : viewA.xPos ≤ max 0 (viewA.boundsWidth - viewA.width) := by
    norm_num [viewA, Viewer.boundsWidth, floatToInt]
  have hy : viewA.yPos ≤ max 0 (viewA.boundsHeight - viewA.height) := by
    norm_num [viewA, Viewer.boundsHeight, floatToInt]
  obtain ⟨-, h2, -, -, -, h6, -⟩ := scroll_is_step_then_clamp viewA (by decide) (by decide)
    (by decide) hx (by decide) hy
  refine ⟨by decide, by decide, by decide, hx, by decide, hy, h2, ?_, h6⟩
  norm_num [viewA, Viewer.scrollDown, floatToInt, scroll]

/-! ## Drawing and zooming -/

theorem ensure_find_state (eng : Engine) (d : Document) :
    (Document.ensureCurrentPageLoaded eng d).matchesCount = d.matchesCount
    ∧ (Document.ensureCurrentPageLoaded eng d).matchIdx = d.matchIdx
    ∧ (Document.ensureCurrentPageLoaded eng d).matches_ = d.matches_
    ∧ (Document.ensureCurrentPageLoaded eng d).matchingFor = d.matchingFor
    ∧ (Document.ensureCurrentPageLoaded eng d).pageNo = d.pageNo := by
  unfold Document.ensureCurrentPageLoaded
  split <;> simp

theorem invertCurrentMatch_ok (v : Viewer) (st : Document)
    (hread : st.matchesCount > 0 → ∃ r, st.matchAt st.matchIdx = some r) :
    ∃ v', v.invertCurrentMatch st = Except.ok v'
      ∧ v'.scale = v.scale ∧ v'.fitWidth = v.fitWidth ∧ v'.xPos = v.xPos
      ∧ v'.yPos = v.yPos ∧ v'.bounds = v.bounds ∧ v'.width = v.width
      ∧ v'.height = v.height ∧ v'.doc = v.doc ∧ v'.transform = v.transform
      ∧ v'.msgs = v.msgs := by
  unfold Viewer.invertCurrentMatch Document.getCurrentMatch
  by_cases hc : st.matchesCount > 0
  · obtain ⟨r, hr⟩ := hread hc
    simp only [hc, if_true, hr]
    exact ⟨_, rfl, rfl, rfl, rfl, rfl, rfl, rfl, rfl, rfl, rfl, rfl⟩
  · simp only [hc, if_false]
    exact ⟨_, rfl, rfl, rfl, rfl, rfl, rfl, rfl, rfl, rfl, rfl, rfl⟩

theorem drawPage_ok (v : Viewer) (o : DocObject) (f : DocFile) (hdoc : v.doc = some o)
    (hfile : o.doc = some f)
    (hread : o.st.matchesCount > 0 → ∃ r, o.st.matchAt o.st.matchIdx = some r) :
    ∃ v', v.drawPage = Except.ok v'
      ∧ v'.fitWidth = v.fitWidth
      ∧ v'.scale = (if v.fitWidth then
          (v.width : ℚ) / ((Document.ensureCurrentPageLoaded f.engine o.st).bounds.x1
            - (Document.ensureCurrentPageLoaded f.engine o.st).bounds.x0)
          else v.scale)
      ∧ v'.transform = v'.scale
      ∧ v'.bounds
          = fz_transform_rect (Document.ensureCurrentPageLoaded f.engine o.st).bounds v'.scale
      ∧ v'.xPos = clampAxis v.xPos v.width v'.boundsWidth
      ∧ v'.yPos = clampAxis v.yPos v.height v'.boundsHeight
      ∧ v'.width = v.width ∧ v'.height = v.height
      ∧ v'.doc = some { o with st := Document.ensureCurrentPageLoaded f.engine o.st }
      ∧ v'.msgs = v.msgs := by
  have hst := ensure_find_state f.engine o.st
  have hread' : (Document.ensureCurrentPageLoaded f.engine o.st).matchesCount > 0 →
      ∃ r, (Document.ensureCurrentPageLoaded f.engine o.st).matchAt
        (Document.ensureCurrentPageLoaded f.engine o.st).matchIdx = some r := by
    intro h
    rw [hst.1] at h
    obtain ⟨r, hr⟩ := hread h
    refine ⟨r, ?_⟩
    simpa [Document.matchAt, hst.2.1, hst.2.2.1] using hr
  unfold Viewer.drawPage
  simp only [hdoc, hfile]
  by_cases hfw : v.fitWidth = true
  · simp only [hfw, if_true]
    rw [fixBounds_eq]
    obtain ⟨v', h1, h2, h3, h4, h5, h6, h7, h8, h9, h10, h11⟩ :=
      invertCurrentMatch_ok _ _ hread'
    refine ⟨v', h1, ?_⟩
    simp only [Viewer.boundsWidth, Viewer.boundsHeight, h2, h3, h4, h5, h6, h7, h8, h9, h10,
      h11]
    simp
  · simp only [hfw, if_false, Bool.false_eq_true]
    rw [fixBounds_eq]
    obtain ⟨v', h1, h2, h3, h4, h5, h6, h7, h8, h9, h10, h11⟩ :=
      invertCurrentMatch_ok _ _ hread'
    refine ⟨v', h1, ?_⟩
    simp only [Viewer.boundsWidth, Viewer.boundsHeight, h2, h3, h4, h5, h6, h7, h8, h9, h10,
      h11]
    simp [hfw]

theorem drawPage_keeps_scale (w : Viewer) (o : DocObject) (f : DocFile) (s : ℚ)
    (hdoc : w.doc = some o) (hfile : o.doc = some f)
    (hread : o.st.matchesCount > 0 → ∃ r, o.st.matchAt o.st.matchIdx = some r)
    (hfw : w.fitWidth = false) (hs : w.scale = s) :
    ∃ v', w.drawPage = Except.ok v' ∧ v'.fitWidth = false ∧ v'.scale = s := by
  obtain ⟨v', h1, h2, h3, -⟩ := drawPage_ok w o f hdoc hfile hread
  refine ⟨v', h1, by rw [h2, hfw], ?_⟩
  rw [h3, hfw, ← hs]
  simp

theorem zoom_gt_one : (1 : ℚ) < zoom := by
  norm_num [zoom]

/-- C15 as stated fails on a scale set by fit-to-width: `small.pdf` has a page 100 wide,
so on the display of width 320 `drawPage` sets the scale to 16/5; `zoomOut` then accepts
the change although the resulting scale `16/5 / zoom` lies above `maxScale`. -/
theorem zoomOut_accepts_scale_above_max :
    Viewer.openDoc envSmall 0 view0 "small.pdf" ⟨0, 0, 0, 0⟩ [] = Except.ok viewS1
    ∧ viewS1.drawPage = Except.ok viewS2
    ∧ viewS2.fitWidth = true ∧ viewS2.scale = 16 / 5
    ∧ maxScale < viewS2.scale / zoom
    ∧ viewS2.zoomOut = Except.ok viewS3
    ∧ viewS3.scale = viewS2.scale / zoom ∧ viewS3.fitWidth = false
    ∧ ¬ (minScale ≤ viewS3.scale ∧ viewS3.scale ≤ maxScale) := by
  have e1 : Int.tdiv 240 2 = 120 := rfl
  have e2 : Int.tdiv 320 2 = 160 := rfl
  have e3 : Int.tdiv 280 2 = 140 := rfl
  have hmin : minScale ≤ viewS2.scale / zoom := by norm_num [viewS2, zoom, minScale]
  refine ⟨rfl, ?_, rfl, rfl, ?_, ?_, rfl, rfl, ?_⟩
  · simp [Viewer.drawPage, viewS1, viewS2, view0, Viewer.new, doc0, Document.new,
      Document.ensureCurrentPageLoaded, fileSmall, engSmall, Viewer.fixBounds,
      Viewer.invertCurrentMatch, Document.getCurrentMatch, fz_transform_rect, floatToInt]
    norm_num
  · norm_num [viewS2, zoom, maxScale]
  · simp only [Viewer.zoomOut, ge_iff_le, hmin, if_true]
    simp [Viewer.drawPage, viewS3, viewS2, doc0, Document.new,
      Document.ensureCurrentPageLoaded, fileSmall, engSmall, Viewer.fixBounds,
      Viewer.invertCurrentMatch, Document.getCurrentMatch, fz_transform_rect, floatToInt,
      zoom, e1, e2, e3]
    norm_num [e1, e2, e3]
  · norm_num [viewS3, zoom, maxScale, minScale]

/-- C15, amended: on a viewer with an open document, `zoomIn` rejects the change exactly
when `scale * zoom > maxScale` and `zoomOut` exactly when `scale / zoom < minScale`; a
rejected call leaves the whole viewer (scale, pan, fit-width flag) as it was; an accepted
call disables fit-to-width and sets the scale to `scale * zoom`, at most `maxScale`, resp.
to `scale / zoom`, at least `minScale`, and the new scale lies within
`[minScale, maxScale]` whenever the scale before the call did. Over exact rationals. -/
theorem zoom_accepts_or_rejects (v : Viewer) (o : DocObject) (f : DocFile)
    (hdoc : v.doc = some o) (hfile : o.doc = some f)
    (hread : o.st.matchesCount > 0 → ∃ r, o.st.matchAt o.st.matchIdx = some r) :
    (maxScale < v.scale * zoom → v.zoomIn = Except.ok v)
    ∧ (v.scale * zoom ≤ maxScale →
        ∃ v', v.zoomIn = Except.ok v' ∧ v'.fitWidth = false ∧ v'.scale = v.scale * zoom
          ∧ v'.scale ≤ maxScale ∧ (minScale ≤ v.scale → minScale ≤ v'.scale))
    ∧ (v.scale / zoom < minScale → v.zoomOut = Except.ok v)
    ∧ (minScale ≤ v.scale / zoom →
        ∃ v', v.zoomOut = Except.ok v' ∧ v'.fitWidth = false ∧ v'.scale = v.scale / zoom
          ∧ minScale ≤ v'.scale ∧ (v.scale ≤ maxScale → v'.scale ≤ maxScale)) := by
  have hz := zoom_gt_one
  have hz0 : (0 : ℚ) < zoom := lt_trans one_pos hz
  refine ⟨?_, ?_, ?_, ?_⟩
  · intro h
    simp [Viewer.zoomIn, not_le.2 h]
  · intro h
    have hb : ∃ v', v.zoomIn = Except.ok v' ∧ v'.fitWidth = false
        ∧ v'.scale = v.scale * zoom := by
      unfold Viewer.zoomIn
      rw [if_pos h]
      exact drawPage_keeps_scale _ o f _ hdoc hfile hread rfl rfl
    obtain ⟨v', h1, h2, h3⟩ := hb
    refine ⟨v', h1, h2, h3, by rw [h3]; exact h, fun hmin => ?_⟩
    rw [h3]
    have hs0 : (0 : ℚ) ≤ v.scale := le_trans (by norm_num [minScale]) hmin
    have : v.scale ≤ v.scale * zoom := le_mul_of_one_le_right hs0 (le_of_lt hz)
    exact le_trans hmin this
  · intro h
    simp [Viewer.zoomOut, not_le.2 h]
  · intro h
    have hb : ∃ v', v.zoomOut = Except.ok v' ∧ v'.fitWidth = false
        ∧ v'.scale = v.scale / zoom := by
      unfold Viewer.zoomOut
      rw [if_pos h]
      exact drawPage_keeps_scale _ o f _ hdoc hfile hread rfl rfl
    obtain ⟨v', h1, h2, h3⟩ := hb
    refine ⟨v', h1, h2, h3, by rw [h3]; exact h, fun hmax => ?_⟩
    rw [h3]
    have hq0 : (0 : ℚ) ≤ v.scale / zoom := le_trans (by norm_num [minScale]) h
    have hs0 : (0 : ℚ) ≤ v.scale := by
      have := mul_nonneg hq0 (le_of_lt hz0)
      rwa [div_mul_cancel₀ _ (ne_of_gt hz0)] at this
    have : v.scale / zoom ≤ v.scale := div_le_self hs0 (le_of_lt hz)
    exact le_trans this hmax

theorem zoom_accepts_or_rejects_witness :
    viewS2.doc = some { doc := some fileSmall,
                        st := { doc0 with page := some 0, bounds := ⟨0, 0, 100, 150⟩,
                                          currentlyLoadedPageNo := 0, loadLog := [0] } }
      ∧ viewS2.zoomIn = Except.ok viewS2
      ∧ ∃ v', viewS2.zoomOut = Except.ok v' ∧ v'.fitWidth = false
          ∧ v'.scale = viewS2.scale / zoom := by
  have h := zoom_accepts_or_rejects viewS2
    { doc := some fileSmall,
      st := { doc0 with page := some 0, bounds := ⟨0, 0, 100, 150⟩,
                        currentlyLoadedPageNo := 0, loadLog := [0] } }
    fileSmall rfl rfl (by intro hc; exact absurd hc (by decide))
  obtain ⟨v', h1, h2, h3, -⟩ := h.2.2.2 (by norm_num [viewS2, zoom, minScale])
  exact ⟨rfl, h.1 (by norm_num [viewS2, zoom, maxScale]), v', h1, h2, h3⟩

/-! ## Bringing a found match into view -/

/-- C13 at the default fit-to-width viewer: a letter-size page (612 by 792) on the
display of 320 by 240 is drawn at scale 80/153, within `[minScale, maxScale]`.
`find("a")` returns true for the match at page coordinates (72, 300)-(80, 312);
`ensureInView` compares these page coordinates with the pan, which is in scaled
pixels, and moves `yPos` to 186, clamped to 174 by `fixBounds`. The match is drawn and
highlighted at `rectL`, about (37.6, 156.9)-(41.8, 163.1), far smaller than the display,
above the visible window `[174, 414]`. -/
theorem find_leaves_match_out_of_view :
    viewL0.drawPage = Except.ok viewL1
    ∧ viewL1.find 2 "a" = Except.ok (true, viewL2)
    ∧ viewL2.inverted = [rectL]
    ∧ viewL2.transform = viewL2.scale
    ∧ minScale ≤ viewL2.scale ∧ viewL2.scale ≤ maxScale
    ∧ rectL.x1 - rectL.x0 ≤ (viewL2.width : ℚ) ∧ rectL.y1 - rectL.y0 ≤ (viewL2.height : ℚ)
    ∧ viewL2.yPos = 174
    ∧ rectL.y1 < (viewL2.yPos : ℚ)
    ∧ ¬ ((viewL2.yPos : ℚ) ≤ rectL.y0 ∧ rectL.y1 ≤ ((viewL2.yPos + viewL2.height : Int) : ℚ)) := by
  have hfind : Document.find engL 2 stL1 "a" = Except.ok (some 0, stL2) := rfl
  have e1 : Int.tdiv 240 2 = 120 := rfl
  have e2 : Int.tdiv 320 2 = 160 := rfl
  have hat : stL2.matchAt 0 = some ⟨72, 300, 80, 312⟩ := rfl
  have hcur : stL1.getCurrentMatch = none := rfl
  have hcur2 : stL2.getCurrentMatch = some 0 := rfl
  have hens : Document.ensureCurrentPageLoaded engL stL2 = stL2 := rfl
  have hb : stL2.bounds = ⟨0, 0, 612, 792⟩ := rfl
  have hfe : fileL.engine = engL := rfl
  have hd : viewL1.doc = some { doc := some fileL, st := stL1 } := rfl
  have hview : Viewer.ensureInView
      { viewL1 with doc := some { doc := some fileL, st := stL2 } } ⟨72, 300, 80, 312⟩
      = { viewL1 with yPos := 186, doc := some { doc := some fileL, st := stL2 } } := by
    simp [Viewer.ensureInView, viewL1, floatToInt, e1, e2]
    norm_num [e1, e2]
  have hdraw : Viewer.drawPage
      { viewL1 with yPos := 186, doc := some { doc := some fileL, st := stL2 } }
      = Except.ok viewL2 := by
    simp only [Viewer.drawPage, hfe, hens, hcur2, hat, Viewer.invertCurrentMatch, hb]
    simp [viewL1, viewL2, Viewer.fixBounds, Viewer.invertPixels, fz_transform_rect, floatToInt]
    norm_num
  refine ⟨?_, ?_, ?_, rfl, ?_, ?_, ?_, ?_, rfl, ?_, ?_⟩
  · simp [Viewer.drawPage, viewL0, viewL1, stL1, view0, Viewer.new, doc0, Document.new,
      Document.ensureCurrentPageLoaded, fileL, engL, Viewer.fixBounds,
      Viewer.invertCurrentMatch, Document.getCurrentMatch, fz_transform_rect, floatToInt]
    norm_num
  · simp only [Viewer.find, Viewer.findWith]
    simp only [hd, Viewer.invertCurrentMatch, hcur, hfe, hfind, hat, hview, hdraw]
  · simp [viewL2, rectL, fz_transform_rect]
    norm_num
  · norm_num [viewL2, viewL1, minScale]
  · norm_num [viewL2, viewL1, maxScale]
  · norm_num [viewL2, viewL1, rectL, fz_transform_rect]
  · norm_num [viewL2, viewL1, rectL, fz_transform_rect]
  · norm_num [viewL2, viewL1, rectL, fz_transform_rect]
  · norm_num [viewL2, viewL1, rectL, fz_transform_rect]

/-! ## Opening a document -/

/-- C14 on a viewer that holds the opened `small.pdf` (`viewS2`): `openDoc` of a missing
file, for which `fz_open_document` throws, and `openDoc` of `secret.pdf`, whose password
prompt the user cancels, both fail, report "Can't open document", and still replace the
document the viewer held, by a `Document` that is not open (no engine handle), resp. one
whose handle was never authenticated. -/
theorem openDoc_failure_replaces_document :
    (DocObject.new ⟨0, 0, 0, 0⟩ []).open envSmall 1 "missing.pdf"
      = Except.ok (false, DocObject.new ⟨0, 0, 0, 0⟩ [])
    ∧ Viewer.openDoc envSmall 1 viewS2 "missing.pdf" ⟨0, 0, 0, 0⟩ []
      = Except.ok { viewS2 with doc := some (DocObject.new ⟨0, 0, 0, 0⟩ []),
                                msgs := ["Can't open document"] }
    ∧ some (DocObject.new ⟨0, 0, 0, 0⟩ []) ≠ viewS2.doc
    ∧ (DocObject.new ⟨0, 0, 0, 0⟩ []).open envSmall 1 "secret.pdf"
      = Except.ok (false, { DocObject.new ⟨0, 0, 0, 0⟩ [] with doc := some fileSecret })
    ∧ Viewer.openDoc envSmall 1 viewS2 "secret.pdf" ⟨0, 0, 0, 0⟩ []
      = Except.ok { viewS2 with
          doc := some { DocObject.new ⟨0, 0, 0, 0⟩ [] with doc := some fileSecret },
          msgs := ["Can't open document"] }
    ∧ some { DocObject.new ⟨0, 0, 0, 0⟩ [] with doc := some fileSecret } ≠ viewS2.doc := by
  refine ⟨rfl, rfl, ?_, rfl, rfl, ?_⟩
  · intro h
    have h2 := congrArg (fun d => d.map (fun o => o.st.currentlyLoadedPageNo)) h
    revert h2
    decide
  · intro h
    have h2 := congrArg (fun d => d.map (fun o => o.st.currentlyLoadedPageNo)) h
    revert h2
    decide

/-! ## Safety of `PageIterator::next` -/

/-- With a positive page count of at most `2^30` and the current page in range, `next()` takes
no remainder by zero and returns a page in range or the sentinel `-1`, and leaves the
iterator in range. -/
theorem next_safe_of_pos (it : PageIterator) (hn : 0 < it.nPages)
    (hov : it.nPages ≤ 1073741824) (hc : 0 ≤ it.current)
    (hcn : it.current < it.nPages) :
    ∃ r it', it.next = Except.ok (r, it')
      ∧ (r = -1 ∨ (0 ≤ r ∧ r < it.nPages))
      ∧ 0 ≤ it'.current ∧ it'.current < it'.nPages ∧ it'.nPages = it.nPages
      ∧ it'.start = it.start ∧ it'.dir = it.dir := by
  have h0 := Int.emod_nonneg (it.nPages + it.current + it.dir.toInt) (ne_of_gt hn)
  have h1 := Int.emod_lt_of_pos (it.nPages + it.current + it.dir.toInt) hn
  unfold PageIterator.next
  rw [if_neg (ne_of_gt hn)]
  simp only [wrap_sum_tmod it.dir hn hov hc hcn]
  by_cases hs : (it.nPages + it.current + it.dir.toInt) % it.nPages ≠ it.start
  · simp only [hs, ne_eq, not_false_eq_true, if_true]
    exact ⟨_, _, rfl, Or.inr ⟨h0, h1⟩, h0, h1, rfl, rfl, rfl⟩
  · simp only [hs, if_false]
    exact ⟨_, _, rfl, Or.inl rfl, hc, hcn, rfl, rfl, rfl⟩

/-- C18 at `pageCount() == 0`: on `eng0`, for which the engine reports no pages, the
iterator `find` constructs is `PageIterator(0, 0, FORWARD)`; `scanPages` finds nothing on
page 0 and calls `next()`, which takes a remainder by zero. `findNext` with a query set
does so at once, in its call that skips the current page. -/
theorem pageIterator_divides_by_zero :
    Document.getPages eng0 = 0
    ∧ (PageIterator.new doc0.pageNo (Document.getPages eng0) Direction.FORWARD).next
        = Except.error Fault.divByZero
    ∧ Document.find eng0 2 doc0 "a" = Except.error Fault.divByZero
    ∧ Document.findNext eng0 2 docA Direction.BACKWARD = Except.error Fault.divByZero := by
  refine ⟨by decide, rfl, rfl, rfl⟩

/-! ## The cursor invariant on reachable states -/

theorem found_length_le (eng : Engine) (p : Int) (needle : Option String) :
    (fz_search_page_number eng p needle MATCH_LIMIT).length ≤ MATCH_LIMIT := by
  simp [fz_search_page_number, List.length_take]

/-- What `scanPages` leaves untouched, and the bounds on the count it returns, for every
fuel and every iterator. -/
theorem scanLoop_frame (eng : Engine) :
    ∀ (fuel : Nat) (d : Document) (iter : PageIterator) (out page : Int) (r : ScanResult),
      Document.scanLoop eng fuel d iter out page = Except.ok r →
      r.doc.matchesCount = d.matchesCount ∧ r.doc.matchIdx = d.matchIdx
      ∧ r.doc.pageNo = d.pageNo
      ∧ r.doc.currentlyLoadedPageNo = d.currentlyLoadedPageNo
      ∧ r.doc.matchingFor = d.matchingFor ∧ r.iter.dir = iter.dir
      ∧ 0 ≤ r.cnt ∧ r.cnt ≤ (MATCH_LIMIT : Int)
      ∧ r.cnt.toNat ≤ r.doc.matches_.length
      ∧ d.matches_.length ≤ r.doc.matches_.length
      ∧ (r.cnt = 0 → r.doc.matches_ = d.matches_) := by
  intro fuel
  induction fuel with
  | zero =>
    intro d iter out page r h
    simp [Document.scanLoop] at h
  | succ fuel ih =>
    intro d iter out page r h
    rw [Document.scanLoop] at h
    by_cases hp : page ≥ 0
    · simp only [hp, if_true] at h
      by_cases hc : ((fz_search_page_number eng page d.matchingFor MATCH_LIMIT).length : Int) > 0
      · simp only [hc, if_true, Except.ok.injEq] at h
        subst h
        have hl := found_length_le eng page d.matchingFor
        refine ⟨rfl, rfl, rfl, rfl, rfl, rfl, ?_, ?_, ?_, ?_, ?_⟩
        · dsimp only; omega
        · dsimp only; exact_mod_cast hl
        · simp
        · simp only [List.length_append, List.length_drop]; omega
        · intro h0; dsimp only at h0; omega
      · simp only [hc, if_false] at h
        have hnil : fz_search_page_number eng page d.matchingFor MATCH_LIMIT = [] := by
          apply List.eq_nil_of_length_eq_zero
          omega
        cases hnext : iter.next with
        | error e => rw [hnext] at h; simp at h
        | ok v =>
          obtain ⟨p, iter1⟩ := v
          rw [hnext] at h
          simp only [hnil, List.nil_append, List.length_nil, List.drop_zero] at h
          have := ih _ _ _ _ _ h
          obtain ⟨h1, h2, h3, h4, h5, h6, h7, h8, h9, h10, h11⟩ := this
          exact ⟨h1, h2, h3, h4, h5, by rw [h6, (next_frame _ _ _ hnext).1], h7, h8, h9, h10, h11⟩
    · simp only [hp, if_false, Except.ok.injEq] at h
      subst h
      refine ⟨rfl, rfl, rfl, rfl, rfl, rfl, le_refl _, by simp [MATCH_LIMIT], by simp,
        le_refl _, fun _ => rfl⟩

theorem gotoPage_matches (eng : Engine) (d : Document) (n : Nat) :
    (Document.gotoPage eng d n).2.matches_ = d.matches_ := by
  unfold Document.gotoPage Document.ensureCurrentPageLoaded Document.resetFind
  split
  · simp only
    split <;> rfl
  · rfl

theorem stdSort_length (ms : List fz_rect) (n : Nat) : (stdSort ms n).length = ms.length := by
  simp only [stdSort, List.length_append, List.length_insertionSort, List.length_take,
    List.length_drop]
  omega

theorem gotoNext_cursorInv (eng : Engine) (fuel : Nat) (d d' : Document)
    (iter : PageIterator) (res : Option Int) (hinv : d.cursorInv)
    (h : Document.gotoNextPageWithOccurrence eng fuel d iter = Except.ok (res, d')) :
    d'.cursorInv := by
  unfold Document.gotoNextPageWithOccurrence Document.scanPages at h
  cases hs : Document.scanLoop eng fuel d iter 0 iter.current with
  | error e => rw [hs] at h; simp at h
  | ok r =>
    rw [hs] at h
    obtain ⟨h1, h2, -, -, -, -, h7, h8, h9, h10, h11⟩ := scanLoop_frame eng _ _ _ _ _ _ hs
    by_cases hc : r.cnt > 0
    · simp only [hc, if_true, Except.ok.injEq, Prod.mk.injEq] at h
      obtain ⟨-, rfl⟩ := h
      refine ⟨le_of_lt hc, h8, ?_, fun _ => ?_, fun h0 => ?_⟩
      · simp only [stdSort_length, gotoPage_matches]
        exact h9
      · simp only
        split <;> omega
      · simp only at h0
        omega
    · simp only [hc, if_false, Except.ok.injEq, Prod.mk.injEq] at h
      obtain ⟨-, rfl⟩ := h
      have hc0 : r.cnt = 0 := by omega
      obtain ⟨i1, i2, i3, i4, i5⟩ := hinv
      refine ⟨by rw [h1]; exact i1, by rw [h1]; exact i2, ?_, ?_, ?_⟩
      · rw [h1, h11 hc0]; exact i3
      · rw [h1, h2]; exact i4
      · rw [h1, h2]; exact i5

theorem gotoPage_cursorInv (eng : Engine) (d : Document) (n : Nat) (hinv : d.cursorInv) :
    (Document.gotoPage eng d n).2.cursorInv := by
  by_cases h : n < Document.getPages eng
  · rw [gotoPage_of_lt eng d n h]
    have hst := ensure_find_state eng { d.resetFind with pageNo := n }
    unfold Document.cursorInv
    rw [hst.1, hst.2.1, hst.2.2.1]
    simp [Document.resetFind, MATCH_LIMIT]
  · rw [gotoPage_of_ge eng d n (not_lt.1 h)]
    exact hinv

theorem find_cursorInv (eng : Engine) (fuel : Nat) (d d' : Document) (q : String)
    (res : Option Int) (h : Document.find eng fuel d q = Except.ok (res, d')) :
    d'.cursorInv := by
  rw [find_unfold] at h
  refine gotoNext_cursorInv eng fuel _ d' _ res ?_ h
  simp [Document.cursorInv, MATCH_LIMIT]

theorem findNext_cursorInv (eng : Engine) (fuel : Nat) (d d' : Document) (dir : Direction)
    (res : Option Int) (hinv : d.cursorInv)
    (h : Document.findNext eng fuel d dir = Except.ok (res, d')) : d'.cursorInv := by
  unfold Document.findNext at h
  by_cases hq : d.matchingFor ≠ none
  · rw [if_pos hq] at h
    by_cases hmove : (d.matchIdx < d.matchesCount - 1 ∧ dir = Direction.FORWARD)
        ∨ (d.matchIdx > 0 ∧ dir = Direction.BACKWARD)
    · rw [if_pos hmove] at h
      simp only [Except.ok.injEq, Prod.mk.injEq] at h
      obtain ⟨-, rfl⟩ := h
      obtain ⟨i1, i2, i3, i4, i5⟩ := hinv
      have hpos : 0 < d.matchesCount := by
        by_contra hn
        have h0 : d.matchesCount = 0 := by omega
        have := i5 h0
        rcases hmove with ⟨hm, -⟩ | ⟨hm, -⟩ <;> omega
      have := i4 hpos
      refine ⟨i1, i2, i3, fun _ => ?_, fun h0 => ?_⟩
      · rcases hmove with ⟨hm, hd⟩ | ⟨hm, hd⟩ <;> subst hd <;>
          simp only [Direction.toInt] <;> omega
      · dsimp only at h0; omega
    · rw [if_neg hmove] at h
      dsimp only at h
      cases hnext : (PageIterator.new d.pageNo (Document.getPages eng) dir).next with
      | error e => rw [hnext] at h; simp at h
      | ok v =>
        obtain ⟨p, iter1⟩ := v
        rw [hnext] at h
        exact gotoNext_cursorInv eng fuel d d' iter1 res hinv h
  · rw [if_neg hq] at h
    simp only [Except.ok.injEq, Prod.mk.injEq] at h
    obtain ⟨-, rfl⟩ := h
    exact hinv

theorem reachable_cursorInv (eng : Engine) (d : Document) (h : Document.Reachable eng d) :
    d.cursorInv := by
  induction h with
  | fresh b ms => simp [Document.cursorInv, Document.new, MATCH_LIMIT]
  | gotoPage n _ ih => exact gotoPage_cursorInv eng _ n ih
  | next _ ih => exact gotoPage_cursorInv eng _ _ ih
  | prev _ ih => exact gotoPage_cursorInv eng _ _ ih
  | find fuel q res _ hf _ => exact find_cursorInv eng fuel _ _ q res hf
  | findNext fuel dir res _ hf ih => exact findNext_cursorInv eng fuel _ _ dir res ih hf

/-- C19: in every document state reachable from a fresh `Document` by `gotoPage`,
`next`, `prev`, `find` and `findNext` (the single-page search writing at most
`MATCH_LIMIT = 512` rectangles), `0 ≤ matchesCount ≤ 512`, the match list is non-empty
exactly when `matchesCount > 0`, and then `0 ≤ matchIdx < matchesCount ≤ 512` and
`getCurrentMatch` returns the pointer to the stored rectangle at the cursor; when the list
is empty it returns `nullptr`. -/
theorem reachable_cursor_in_range (eng : Engine) (d : Document)
    (h : Document.Reachable eng d) :
    0 ≤ d.matchesCount ∧ d.matchesCount ≤ 512
    ∧ (d.matchList ≠ [] ↔ 0 < d.matchesCount)
    ∧ (d.matchList ≠ [] →
        0 ≤ d.matchIdx ∧ d.matchIdx < d.matchesCount ∧ d.matchIdx < 512
        ∧ d.getCurrentMatch = some d.matchIdx
        ∧ ∃ r, d.matchAt d.matchIdx = some r ∧ d.matchList[d.matchIdx.toNat]? = some r)
    ∧ (d.matchList = [] → d.getCurrentMatch = none) := by
  obtain ⟨i1, i2, i3, i4, i5⟩ := reachable_cursorInv eng d h
  have i2' : d.matchesCount ≤ 512 := by simpa [MATCH_LIMIT] using i2
  have hlen : d.matchList.length = d.matchesCount.toNat := by
    simp [Document.matchList, List.length_take, i3]
  have hiff : d.matchList ≠ [] ↔ 0 < d.matchesCount := by
    rw [← List.length_pos, hlen]
    omega
  refine ⟨i1, i2', hiff, fun hne => ?_, fun he => ?_⟩
  · have hpos := hiff.1 hne
    obtain ⟨j1, j2⟩ := i4 hpos
    have hlt : d.matchIdx.toNat < d.matchList.length := by rw [hlen]; omega
    refine ⟨j1, j2, by omega, by simp [Document.getCurrentMatch, hpos],
      d.matchList[d.matchIdx.toNat], ?_, List.getElem?_eq_getElem hlt⟩
    rw [matchAt_eq_matchList d _ j1 j2]
    exact List.getElem?_eq_getElem hlt
  · have h0 : ¬ 0 < d.matchesCount := fun hp => hiff.2 hp he
    simp [Document.getCurrentMatch, h0]

theorem reachable_cursor_in_range_witness :
    Document.Reachable eng3 docP0last
      ∧ docP0last.matchList ≠ []
      ∧ 0 ≤ docP0last.matchIdx ∧ docP0last.matchIdx < docP0last.matchesCount
      ∧ docP0last.getCurrentMatch = some docP0last.matchIdx := by
  have hr : Document.Reachable eng3 docP0last :=
    Document.Reachable.findNext (d := docP0) 0 Direction.FORWARD (some 1)
      (Document.Reachable.find (d := doc0) 4 "a" (some 0)
        (Document.Reachable.fresh ⟨0, 0, 0, 0⟩ []) rfl) rfl
  have hne : docP0last.matchList ≠ [] := by decide
  obtain ⟨-, -, -, h4, -⟩ := reachable_cursor_in_range eng3 docP0last hr
  obtain ⟨h5, h6, -, h7, -⟩ := h4 hne
  exact ⟨hr, hne, h5, h6, h7⟩

/-! ## The match list invariant on reachable states -/

theorem listInv_landOn {eng : Engine} {P : Int} (d : Document) (q : String)
    (dir : Direction) (log : List Int) (hq : d.matchingFor = some q) (h0 : 0 ≤ P)
    (hP : P < (Document.getPages eng : Int)) (hhit : hasMatch eng q P) :
    Document.listInv eng (landOn eng d dir P log) := by
  have hpage := landOn_pageNo d dir log rfl h0 hP
  have hon := landOn_onMatch d q dir log hq h0 hP hhit
  obtain ⟨-, -, -, -, i5, i6⟩ := hon
  refine ⟨fun _ => by omega, by omega, fun hc => by omega, fun _ =>
    ⟨landOn_loaded d dir log rfl h0 hP, q, landOn_onMatch d q dir log hq h0 hP hhit⟩⟩

theorem listInv_searchLog (eng : Engine) (d : Document) (l : List Int)
    (hinv : Document.listInv eng d) : Document.listInv eng { d with searchLog := l } :=
  hinv

theorem gotoPage_listInv (eng : Engine) (d : Document) (n : Nat)
    (hinv : Document.listInv eng d) : Document.listInv eng (Document.gotoPage eng d n).2 := by
  by_cases h : n < Document.getPages eng
  · rw [gotoPage_of_lt eng d n h]
    have hst := ensure_find_state eng { d.resetFind with pageNo := n }
    refine ⟨fun _ => by rw [hst.2.2.2.2]; exact h, by rw [hst.1]; exact le_refl _,
      fun _ => by rw [hst.2.1]; simp [Document.resetFind], fun hc => ?_⟩
    rw [hst.1] at hc
    simp [Document.resetFind] at hc
  · rw [gotoPage_of_ge eng d n (not_lt.1 h)]
    exact hinv

theorem find_listInv (eng : Engine) (fuel : Nat) (d d' : Document) (q : String)
    (res : Option Int) (hE : 1 ≤ Document.getPages eng ∨ eng.hitsInRange)
    (hinv : Document.listInv eng d)
    (h : Document.find eng fuel d q = Except.ok (res, d')) : Document.listInv eng d' := by
  have hpg : d.pageNo < Document.getPages eng
      ∨ fz_search_page_number eng d.pageNo (some q) MATCH_LIMIT = [] := by
    by_cases h1 : 1 ≤ Document.getPages eng
    · exact Or.inl (hinv.1 h1)
    · right
      rcases hE with hE | hE
      · exact absurd hE h1
      · unfold fz_search_page_number
        rw [hE (d.pageNo : Int) (some q) (by intro hh; omega)]
        rfl
  rcases find_result eng fuel d d' q res hpg h with
    ⟨P, log, h0, h1, hhit, hd, -⟩ | ⟨log, -, hd⟩
  · rw [hd]
    exact listInv_landOn (findStart d q) q Direction.FORWARD log rfl h0 h1 hhit
  · rw [hd]
    refine ⟨hinv.1, le_refl _, fun _ => ⟨by simp [findStart], le_refl _⟩, fun hc => ?_⟩
    simp [findStart] at hc

theorem findNext_listInv (eng : Engine) (fuel : Nat) (d d' : Document) (dir : Direction)
    (res : Option Int) (hinv : Document.listInv eng d)
    (h : Document.findNext eng fuel d dir = Except.ok (res, d')) :
    Document.listInv eng d' := by
  by_cases hq : d.matchingFor = none
  · simp only [Document.findNext, hq, ne_eq, not_true_eq_false, if_false, Except.ok.injEq,
      Prod.mk.injEq] at h
    obtain ⟨-, rfl⟩ := h
    exact hinv
  · by_cases hmove : (d.matchIdx < d.matchesCount - 1 ∧ dir = Direction.FORWARD)
        ∨ (d.matchIdx > 0 ∧ dir = Direction.BACKWARD)
    · rw [findNext_move eng fuel d dir hq hmove] at h
      simp only [Except.ok.injEq, Prod.mk.injEq] at h
      obtain ⟨-, rfl⟩ := h
      obtain ⟨i1, i2, i3, i4⟩ := hinv
      have hpos : 0 < d.matchesCount := by
        by_contra hn
        have hz : d.matchesCount = 0 := by omega
        have := i3 hz
        rcases hmove with ⟨hm, -⟩ | ⟨hm, -⟩ <;> omega
      obtain ⟨hl, q, o1, o2, o3, o4, o5, o6⟩ := i4 hpos
      have hr : 0 ≤ d.matchIdx + dir.toInt ∧ d.matchIdx + dir.toInt < d.matchesCount := by
        rcases hmove with ⟨hm, hd⟩ | ⟨hm, hd⟩ <;> subst hd <;>
          simp only [Direction.toInt] <;> omega
      exact ⟨i1, i2, fun hz => by dsimp only at hz; omega,
        fun _ => ⟨hl, q, o1, o2, o3, o4, hr.1, hr.2⟩⟩
    · obtain ⟨q, hq'⟩ := Option.ne_none_iff_exists'.1 hq
      rcases findNext_blocked_result eng fuel d d' q dir res hq' hmove hinv.1 h with
        ⟨P, log, hP0, hPn, hhit, hd, -⟩ | ⟨log, -, hd⟩
      · rw [hd]
        exact listInv_landOn d q dir log hq' hP0 hPn hhit
      · rw [hd]
        exact listInv_searchLog eng d _ hinv

theorem reachable_listInv (eng : Engine) (d : Document)
    (hE : 1 ≤ Document.getPages eng ∨ eng.hitsInRange)
    (h : Document.Reachable eng d) : Document.listInv eng d := by
  induction h with
  | fresh b ms =>
    refine ⟨fun h1 => h1, le_refl _, fun _ => ⟨le_refl _, by simp [Document.new]⟩,
      fun hc => ?_⟩
    simp [Document.new] at hc
  | gotoPage n _ ih => exact gotoPage_listInv eng _ n ih
  | next _ ih => exact gotoPage_listInv eng _ _ ih
  | prev _ ih => exact gotoPage_listInv eng _ _ ih
  | find fuel q res _ hf ih => exact find_listInv eng fuel _ _ q res hE ih hf
  | findNext fuel dir res _ hf ih => exact findNext_listInv eng fuel _ _ dir res ih hf

/-- C20 as stated fails on `engStray`, which reports no pages and yet two occurrences of
`"a"` for page index 0: `find "a"` on a fresh document searches page 0 before any test of
the page count, stores the two occurrences and returns the first, while the `gotoPage(0)`
it calls is refused; the reachable state has a non-empty match list with no page loaded
(`currentlyLoadedPageNo` still `(unsigned) -1`), and `pageNo` is no page of the document. -/
theorem reachable_matches_on_unloaded_page :
    Document.getPages engStray = 0
    ∧ Document.find engStray 1 doc0 "a" = Except.ok (some 0, docStray)
    ∧ Document.Reachable engStray docStray
    ∧ docStray.matchList ≠ []
    ∧ docStray.currentlyLoadedPageNo = 4294967295
    ∧ docStray.currentlyLoadedPageNo ≠ docStray.pageNo
    ∧ ¬ (1 ≤ Document.getPages engStray ∨ engStray.hitsInRange) := by
  have hf : Document.find engStray 1 doc0 "a" = Except.ok (some 0, docStray) := rfl
  refine ⟨by decide, hf,
    Document.Reachable.find (d := doc0) 1 "a" (some 0)
      (Document.Reachable.fresh ⟨0, 0, 0, 0⟩ []) hf,
    by decide, rfl, by decide, ?_⟩
  rintro (h | h)
  · exact absurd h (by decide)
  · exact absurd (h 0 (some "a") (by decide)) (by decide)

/-- C20 (amended): on a document that has at least one page, or whose engine reports no
occurrence for a page index outside the document, in every document state reachable
from a fresh `Document` by `gotoPage`,
`next`, `prev`, `find` and `findNext` calls, whatever they return: whenever the match
list is non-empty,
a query is bound, the match list is the reading-order-sorted permutation of what the
single-page search returns for that query on `pageNo`, and the loaded page is `pageNo`;
and so it is again after any further `findNext`, whether it lands on a new page or
returns `nullptr`. -/
theorem reachable_matches_belong_to_current_page (eng : Engine) (d : Document)
    (hE : 1 ≤ Document.getPages eng ∨ eng.hitsInRange) (h : Document.Reachable eng d) :
    (d.matchList ≠ [] →
      ∃ q, d.matchingFor = some q
        ∧ d.pageNo < Document.getPages eng
        ∧ d.currentlyLoadedPageNo = d.pageNo
        ∧ List.Perm d.matchList (fz_search_page_number eng d.pageNo (some q) MATCH_LIMIT)
        ∧ List.Pairwise readingOrder d.matchList
        ∧ d.matchList
          = List.insertionSort matchLe
              (fz_search_page_number eng d.pageNo (some q) MATCH_LIMIT))
    ∧ ∀ (fuel : Nat) (dir : Direction) (res : Option Int) (d' : Document),
        Document.findNext eng fuel d dir = Except.ok (res, d') → d'.matchList ≠ [] →
        ∃ q, d'.matchingFor = some q
          ∧ d'.pageNo < Document.getPages eng
          ∧ d'.currentlyLoadedPageNo = d'.pageNo
          ∧ List.Perm d'.matchList (fz_search_page_number eng d'.pageNo (some q) MATCH_LIMIT)
          ∧ List.Pairwise readingOrder d'.matchList
          ∧ d'.matchList
            = List.insertionSort matchLe
                (fz_search_page_number eng d'.pageNo (some q) MATCH_LIMIT) := by
  have key : ∀ e : Document, Document.listInv eng e → e.matchList ≠ [] →
      ∃ q, e.matchingFor = some q
        ∧ e.pageNo < Document.getPages eng
        ∧ e.currentlyLoadedPageNo = e.pageNo
        ∧ List.Perm e.matchList (fz_search_page_number eng e.pageNo (some q) MATCH_LIMIT)
        ∧ List.Pairwise readingOrder e.matchList
        ∧ e.matchList
          = List.insertionSort matchLe
              (fz_search_page_number eng e.pageNo (some q) MATCH_LIMIT) := by
    intro e hinv hne
    obtain ⟨-, i2, -, i4⟩ := hinv
    have hpos : 0 < e.matchesCount := by
      by_contra hn
      have hz : e.matchesCount = 0 := by omega
      exact hne (by simp [Document.matchList, hz])
    obtain ⟨hl, q, o1, o2, -, o4, -, -⟩ := i4 hpos
    refine ⟨q, o2, o1, hl, ?_, ?_, o4⟩
    · rw [o4]; exact List.perm_insertionSort matchLe _
    · rw [o4]; exact insertionSort_reading _
  refine ⟨key d (reachable_listInv eng d hE h), fun fuel dir res d' hf => ?_⟩
  exact key d' (findNext_listInv eng fuel d d' dir res (reachable_listInv eng d hE h) hf)

theorem reachable_matches_belong_to_current_page_witness :
    (1 ≤ Document.getPages eng3 ∨ eng3.hitsInRange) ∧ Document.Reachable eng3 docP2
      ∧ docP2.matchList ≠ []
      ∧ ∃ q, docP2.matchingFor = some q
          ∧ docP2.currentlyLoadedPageNo = docP2.pageNo
          ∧ List.Perm docP2.matchList
              (fz_search_page_number eng3 docP2.pageNo (some q) MATCH_LIMIT) := by
  have hr : Document.Reachable eng3 docP2 :=
    Document.Reachable.findNext (d := docP0last) 4 Direction.FORWARD (some 0)
      (Document.Reachable.findNext (d := docP0) 0 Direction.FORWARD (some 1)
        (Document.Reachable.find (d := doc0) 4 "a" (some 0)
          (Document.Reachable.fresh ⟨0, 0, 0, 0⟩ []) rfl) rfl) rfl
  have hne : docP2.matchList ≠ [] := by decide
  obtain ⟨q, h1, -, h3, h4, -, -⟩ :=
    (reachable_matches_belong_to_current_page eng3 docP2 (Or.inl (by decide)) hr).1 hne
  exact ⟨Or.inl (by decide), hr, hne, q, h1, h3, h4⟩

end NPDF
